import Mathlib
/-!
Verification of the segurodb storage engine core: a shallow embedding of the
Rust sources (key prefixes, options, the flush writer and its decision
procedure, the idempotent flush artifact, the journal, collision logs and the
top-level database operations), together with theorems settling the spec
claims about them.

Bytes are modelled as `Nat` (values below 256 where it matters), byte buffers
as `List Nat`, machine integers as `Nat`/`Int` with explicit wrap where the
source can overflow, and panics/IO failures as explicit error values.
-/
namespace Segurodb
/-! ### Little-endian byte encoding (byteorder crate) -/
/-- `n` encoded as `k` little-endian bytes (as `write_u32`/`write_u64` do:
higher bytes are truncated). -/
def leBytes : Nat → Nat → List Nat
  | 0, _ => []
  | k + 1, n => (n % 256) :: leBytes k (n / 256)
/-- Little-endian read of a whole byte list (`read_u32`/`read_u64` read
exactly 4/8 bytes; callers pass slices of that length). -/
def readLE : List Nat → Nat
  | [] => 0
  | b :: t => b + 256 * readLE t
/-! ### Byte-buffer helpers -/
/-- A zero-filled buffer (`set_len` on a fresh file; `vec.resize`). -/
def zeros (n : Nat) : List Nat := List.replicate n 0
/-- `dst[off..off+src.len()].copy_from_slice(src)`.  Callers in the engine
only use it in bounds; this model keeps the destination length. -/
def setRange (dst : List Nat) (off : Nat) (src : List Nat) : List Nat :=
  dst.take off ++ (src.take (dst.length - off)) ++ dst.drop (off + src.length)
/-! ### Byte-slice comparison (`[u8]::cmp`, lexicographic) -/
/-- Lexicographic comparison of byte slices, as Rust's `Ord for [u8]`. -/
def cmpBytes : List Nat → List Nat → Ordering
  | [], [] => .eq
  | [], _ :: _ => .lt
  | _ :: _, [] => .gt
  | a :: as', b :: bs' =>
    match compare a b with
    | .eq => cmpBytes as' bs'
    | o => o
/-! ### Fields (src/field) -/
/-- `field::HEADER_SIZE`. -/
def headerSize : Nat := 1
/-- `field::field_size`. -/
def fieldSize (fieldBodySize : Nat) : Nat := fieldBodySize + headerSize
/-- `field::Header`. -/
inductive Header where
  | uninit
  | inserted
  | continued
deriving DecidableEq, Repr
/-- Errors of the `field` module. -/
inductive FieldErr where
  | invalidHeader
  | invalidLength
deriving DecidableEq, Repr
/-- `Header::from_u8`. -/
def headerOfByte (b : Nat) : Except FieldErr Header :=
  if b = 0 then .ok .uninit
  else if b = 1 then .ok .inserted
  else if b = 2 then .ok .continued
  else .error .invalidHeader
/-! ### Field views (`FieldsView`, macro `on_body_slice`)

`fvRead data fbs off len` is the logical byte range `[off, off+len)` of the
view, skipping the per-field header bytes, exactly as the `on_body_slice`
macro walks it (first partial chunk, whole chunks, final partial chunk). -/
/-- Whole-field chunks of the `on_body_slice` macro: starting at physical
position `ours` (which sits just before a header), read `cnt` bodies of size
`fbs` each. -/
def fvChunks (data : List Nat) (fbs : Nat) : Nat → Nat → List Nat
  | _, 0 => []
  | ours, cnt + 1 =>
    ((data.drop (ours + headerSize)).take fbs) ++
      fvChunks data fbs (ours + headerSize + fbs) cnt
/-- The `on_body_slice` macro: logical bytes `[off, off+len)` of a fields
view over `data` with body size `fbs`. -/
def fvRead (data : List Nat) (fbs off len : Nat) : List Nat :=
  let ours0 := off + headerSize * off / fbs
  if off % fbs ≠ 0 then
    let rem := min len (fbs - off % fbs)
    let first := (data.drop (ours0 + headerSize)).take rem
    let fields := (len - rem) / fbs
    let mid := fvChunks data fbs (ours0 + headerSize + rem) fields
    let theirs := rem + fields * fbs
    if theirs ≠ len then
      first ++ mid ++ (data.drop (ours0 + headerSize + rem + fields * (headerSize + fbs) + headerSize)).take (len - theirs)
    else first ++ mid
  else
    let fields := len / fbs
    let mid := fvChunks data fbs ours0 fields
    let theirs := fields * fbs
    if theirs ≠ len then
      mid ++ (data.drop (ours0 + fields * (headerSize + fbs) + headerSize)).take (len - theirs)
    else mid
/-- `Record::extract_key`: the key view of the record starting at `data`. -/
def extractKey (data : List Nat) (fbs keyLen : Nat) : List Nat :=
  fvRead data fbs 0 keyLen
/-! ### Key prefixes (src/key.rs) -/
/-- `Key::read_prefix`: big-endian whole bytes, then the top `pbits % 8`
bits of the next byte.  `u32` arithmetic is modelled with an explicit
`% 2^32` at each shift. -/
def readPfx (key : List Nat) (pbits : Nat) : Nat :=
  let pos := pbits / 8
  let bits := pbits % 8
  let whole := (List.range pos).foldl
    (fun p i => (p <<< 8) % 2 ^ 32 ||| key.getD i 0) 0
  if bits > 0 then
    ((whole <<< bits) % 2 ^ 32) ||| (key.getD pos 0 >>> (8 - bits))
  else whole
/-- `Key::offset`. -/
def keyOffset (key : List Nat) (pbits fieldBodySize : Nat) : Nat :=
  readPfx key pbits * fieldSize fieldBodySize
/-! ### Options (src/options.rs) -/
/-- `options::ValuesLen`. -/
inductive ValuesLen where
  | constant (len : Nat)
  | variableLen (expected : Nat)
deriving DecidableEq, Repr
/-- `record::HEADER_SIZE` (length header of variable-size values). -/
def recordHeaderSize : Nat := 4
/-- `ValuesLen::size`. -/
def ValuesLen.size : ValuesLen → Nat
  | .constant x => x
  | .variableLen expected => recordHeaderSize + expected
/-- `record::ValueSize`. -/
inductive ValueSize where
  | variableSize
  | constSize (len : Nat)
deriving DecidableEq, Repr
/-- `ValuesLen::to_value_size`. -/
def ValuesLen.toValueSize : ValuesLen → ValueSize
  | .constant s => .constSize s
  | .variableLen _ => .variableSize
/-- `ValuesLen::is_const`. -/
def ValuesLen.isConst : ValuesLen → Bool
  | .constant _ => true
  | .variableLen _ => false
deriving instance DecidableEq for Except
/-- Engine errors (src/error.rs), plus explicit constructors for panics and
for exhausting the fuel of the loop models. -/
inductive DbError where
  | invalidKeyLen (expected got : Nat)
  | invalidOptions (field : String)
  | fieldE (e : FieldErr)
  | expectPanic
  | unimplementedGet
  | fuelOut
deriving DecidableEq, Repr
/-- `options::Options`. -/
structure Options where
  journal_eras : Nat
  extend_threshold_percent : Nat
  key_index_bits : Nat
  key_len : Nat
  value_len : ValuesLen
  max_prefix_collisions : Nat
deriving DecidableEq, Repr
/-- `Options::default`. -/
def Options.default : Options :=
  { journal_eras := 5
    extend_threshold_percent := 80
    key_index_bits := 8
    key_len := 32
    value_len := .constant 64
    max_prefix_collisions := 6 }
/-- `options::InternalOptions`. -/
structure InternalOptions where
  external : Options
  value_size : ValueSize
  field_body_size : Nat
  initial_db_size : Nat
  record_offset : Nat
deriving DecidableEq, Repr
/-- `InternalOptions::from_external`.  The `initial_db_size` expression is
the source's `(2u64 << external.key_index_bits + 1) * record_offset as u64`
(Rust parses it as `2 << (key_index_bits + 1)`), wrapped to `u64`. -/
def InternalOptions.fromExternal (external : Options) : Except DbError InternalOptions :=
  if external.extend_threshold_percent > 100 ∨ external.extend_threshold_percent = 0 then
    .error (.invalidOptions "extend_threshold_percent")
  else if external.key_index_bits > external.key_len * 8 then
    .error (.invalidOptions "key_index_bits")
  else if external.key_index_bits = 0 then
    .error (.invalidOptions "key_index_bits")
  else if external.max_prefix_collisions < 1 then
    .error (.invalidOptions "max_prefix_collisions")
  else if external.key_index_bits > 32 then
    .error (.invalidOptions "key_index_bits")
  else
    let value_size := external.value_len.toValueSize
    let field_body_size := external.key_len + external.value_len.size
    let record_offset := fieldSize field_body_size
    let initial_db_size := (2 <<< (external.key_index_bits + 1)) * record_offset % 2 ^ 64
    .ok { external, value_size, field_body_size, initial_db_size, record_offset }

/-- The data file created by `Database::create` (`file.set_len(initial_db_size)`
zero-fills the file). -/
def createDataFile (io : InternalOptions) : List Nat := zeros io.initial_db_size
/-! ### Transaction operations (src/transaction.rs) -/
/-- `transaction::Operation`. -/
inductive Op where
  | insert (key value : List Nat)
  | delete (key : List Nat)
deriving DecidableEq, Repr
/-- `Operation::key`. -/
def Op.key : Op → List Nat
  | .insert k _ => k
  | .delete k => k
/-! ### Spaces (src/space.rs) -/
/-- `space::Space` (an `Occupied` space carries the record bytes, an `Empty`
space its length). -/
inductive Space where
  | occupied (off : Nat) (data : List Nat)
  | empty (off : Nat) (len : Nat)
deriving DecidableEq, Repr
/-- The header-scanning loop of `SpaceIterator::next`: `start`/`offset` are
the loop cursors, `first` the `first_header` variable (only `none` or
`some .inserted` ever recur).  Returns the space and the iterator's new
offset. -/
def spaceLoopF (data : List Nat) (fbs : Nat) :
    Nat → Nat → Nat → Option Header → Except FieldErr (Space × Nat)
  | 0, _, _, _ => .error .invalidHeader
  | fuel + 1, start, offset, first =>
    if data.length ≤ offset then
      match first with
      | none => .error .invalidHeader
      | some .inserted =>
        .ok (.occupied start ((data.drop start).take (offset - start)), offset)
      | some _ => .ok (.empty start (offset - start), offset)
    else
      match headerOfByte (data.getD offset 0) with
      | .error e => .error e
      | .ok .continued =>
        match first with
        | none =>
          spaceLoopF data fbs fuel (start + fieldSize fbs) (offset + fieldSize fbs) none
        | some .inserted =>
          spaceLoopF data fbs fuel start (offset + fieldSize fbs) (some .inserted)
        | some _ => .error .invalidHeader
      | .ok .inserted =>
        match first with
        | some .inserted =>
          .ok (.occupied start ((data.drop start).take (offset - start)), offset)
        | none => spaceLoopF data fbs fuel start (offset + fieldSize fbs) (some .inserted)
        | some _ => .error .invalidHeader
      | .ok .uninit =>
        match first with
        | some .inserted =>
          .ok (.occupied start ((data.drop start).take (offset - start)), offset)
        | none =>
          .ok (.empty start (offset + fieldSize fbs - start), offset + fieldSize fbs)
        | some _ => .error .invalidHeader
/-- The header-scanning loop of `SpaceIterator::next` with sufficient fuel
(the loop consumes one field per iteration). -/
def spaceLoop (data : List Nat) (fbs : Nat) (start offset : Nat)
    (first : Option Header) : Except FieldErr (Space × Nat) :=
  spaceLoopF data fbs (data.length + 1) start offset first
/-- `SpaceIterator::next`: `none` when the remaining slice is empty;
`InvalidLength` when it is not a whole number of fields
(`FieldHeaderIterator::new`). -/
def spaceNext (data : List Nat) (fbs offset : Nat) :
    Option (Except FieldErr (Space × Nat)) :=
  if data.length ≤ offset then none
  else if (data.length - offset) % fieldSize fbs ≠ 0 then some (.error .invalidLength)
  else some (spaceLoop data fbs offset offset none)
/-- `SpaceIterator::move_offset_forward`. -/
def spaceMoveForward (offset target : Nat) : Nat :=
  if target > offset then target else offset
/-! ### Flush decisions (src/flush/decision.rs) -/
/-- `decision::Decision`. -/
inductive Decision where
  | insertOperationIntoEmptySpace (key value : List Nat) (offset spaceLen : Nat)
  | insertOperationBeforeOccupiedSpace (key value : List Nat) (offset : Nat)
  | overwriteOperation (key value : List Nat) (offset oldLen : Nat)
  | deleteOperation (offset len : Nat)
  | seekSpace
  | ignoreOperation
  | consumeEmptySpace (len : Nat)
  | shiftOccupiedSpace (data : List Nat)
  | finishBackwardShift
deriving DecidableEq, Repr
/-- `compare_space_and_operation`. -/
def compareSpaceAndOp (space : List Nat) (key : List Nat) (fbs : Nat) : Ordering :=
  cmpBytes (extractKey space fbs key.length) key
/-- `min_offset_for_key`. -/
def minOffsetForKey (key : List Nat) (pbits fbs : Nat) : Nat :=
  keyOffset key pbits fbs
/-- `min_offset_for_space`: the first `ceil(prefix_bits/8)` logical bytes of
the record, zero-padded to the 4-byte array the source allocates. -/
def minOffsetForSpace (data : List Nat) (pbits fbs : Nat) : Nat :=
  let kpl := (pbits + 7) / 8
  minOffsetForKey ((extractKey data fbs kpl ++ zeros 4).take 4) pbits fbs
/-- `is_min_offset_for_key` (the source asserts `shift < 0`; the subtraction
`offset - (-shift)` is in `Int` here, where the source's `usize` would
panic on underflow). -/
def isMinOffsetForKey (offset : Nat) (shift : Int) (key : List Nat)
    (pbits fbs : Nat) : Bool :=
  (minOffsetForKey key pbits fbs : Int) ≤ (offset : Int) + shift
/-- `is_min_offset_for_space`. -/
def isMinOffsetForSpace (offset : Nat) (shift : Int) (data : List Nat)
    (pbits fbs : Nat) : Bool :=
  (minOffsetForSpace data pbits fbs : Int) ≤ (offset : Int) + shift
/-- `decision::decision`, with the `Shift` tip inlined as sign tests on
`shift`. -/
def decision (op : Op) (space : Space) (shift : Int) (fbs pbits : Nat) : Decision :=
  match op, space with
  | .insert key value, .empty soff slen =>
    if shift = 0 then .insertOperationIntoEmptySpace key value soff slen
    else if shift < 0 then
      if isMinOffsetForKey soff shift key pbits fbs then
        .insertOperationIntoEmptySpace key value soff slen
      else .finishBackwardShift
    else .consumeEmptySpace slen
  | .insert key value, .occupied soff sdata =>
    match compareSpaceAndOp sdata key fbs with
    | .lt =>
      if shift = 0 then .seekSpace
      else if shift < 0 then
        if isMinOffsetForSpace soff shift sdata pbits fbs then
          .shiftOccupiedSpace sdata
        else .finishBackwardShift
      else .shiftOccupiedSpace sdata
    | .eq => .overwriteOperation key value soff sdata.length
    | .gt =>
      if shift < 0 then
        if isMinOffsetForKey soff shift key pbits fbs then
          .insertOperationBeforeOccupiedSpace key value soff
        else .finishBackwardShift
      else .insertOperationBeforeOccupiedSpace key value soff
  | .delete _, .empty _ slen =>
    if shift = 0 then .ignoreOperation
    else if shift > 0 then .consumeEmptySpace slen
    else
      match op with
      | .delete key =>
        if isMinOffsetForKey (match space with | .empty soff _ => soff | .occupied soff _ => soff)
            shift key pbits fbs then
          .consumeEmptySpace slen
        else .ignoreOperation
      | _ => .ignoreOperation
  | .delete key, .occupied soff sdata =>
    match compareSpaceAndOp sdata key fbs with
    | .lt =>
      if shift = 0 then .seekSpace
      else if shift < 0 then
        if isMinOffsetForSpace soff shift sdata pbits fbs then
          .shiftOccupiedSpace sdata
        else .finishBackwardShift
      else .shiftOccupiedSpace sdata
    | .eq => .deleteOperation soff sdata.length
    | .gt => .ignoreOperation
/-! ### Record serialization (src/record/append.rs) -/
/-- `RecordIterator::next` collected into a list: `pos`/`peeked` mirror the
iterator state, `fs` is the full field size.  Fuel strictly exceeds the
number of emitted bytes. -/
def recNext (fs : Nat) : Nat → List Nat → Nat → Option Nat → List Nat
  | 0, _, _, _ => []
  | fuel + 1, inner, pos, some p => p :: recNext fs fuel inner (pos + 1) none
  | fuel + 1, inner, pos, none =>
    if pos = 0 then
      match inner with
      | [] => []
      | b :: rest => 1 :: recNext fs fuel rest (pos + 1) (some b)
    else if pos % fs = 0 then
      match inner with
      | [] => []
      | b :: rest => 2 :: recNext fs fuel rest (pos + 1) (some b)
    else
      match inner with
      | b :: rest => b :: recNext fs fuel rest (pos + 1) none
      | [] => 0 :: recNext fs fuel [] (pos + 1) none
/-- The raw record stream of `RawRecordIterator`: key, then (for variable
values) the 4-byte little-endian value length, then the value. -/
def rawRecord (key value : List Nat) (constValue : Bool) : List Nat :=
  key ++ (if constValue then [] else leBytes 4 value.length) ++ value
/-- The byte image `append_record` appends to the buffer. -/
def recordBytes (key value : List Nat) (fbs : Nat) (constValue : Bool) : List Nat :=
  let inner := rawRecord key value constValue
  recNext (fieldSize fbs) (2 * inner.length + 2 * fieldSize fbs + 4) inner 0 none
/-- `append_record`. -/
def appendRecord (buffer : List Nat) (key value : List Nat) (fbs : Nat)
    (constValue : Bool) : List Nat :=
  buffer ++ recordBytes key value fbs constValue
/-! ### Prefix tree (src/prefix_tree.rs)

The `BitVec<u8>` is a `List Bool`; byte `i` of its storage packs bits
`8*i..8*i+8` least-significant-bit first.  `BitVec::set` panics out of
range where `List.set` is a no-op; the engine never goes out of range. -/
/-- `PrefixTree::leaf_index`. -/
def leafIndex (leaf : Nat) (pbits : Nat) : Nat := leaf + (1 <<< pbits)
def setAncestorsF : Nat → List Bool → Nat → List Bool
  | 0, tree, _ => tree
  | fuel + 1, tree, idx =>
    if 1 < idx then setAncestorsF fuel (tree.set (idx >>> 1) true) (idx >>> 1)
    else tree
/-- Ancestor walk of `PrefixTree::insert` (the index at least halves each
iteration, so `idx + 1` units of fuel always suffice). -/
def setAncestors (tree : List Bool) (idx : Nat) : List Bool :=
  setAncestorsF (idx + 1) tree idx
def removeAncestorsF : Nat → List Bool → Nat → List Bool
  | 0, tree, _ => tree
  | fuel + 1, tree, idx =>
    if idx ≤ 1 then tree
    else if tree.getD (if idx % 2 = 0 then idx + 1 else idx - 1) false then tree
    else removeAncestorsF fuel (tree.set (idx >>> 1) false) (idx >>> 1)
/-- Ancestor walk of `PrefixTree::remove` (stop at a set sibling). -/
def removeAncestors (tree : List Bool) (idx : Nat) : List Bool :=
  removeAncestorsF (idx + 1) tree idx
/-- `prefix_tree::PrefixTree`. -/
structure PfxTree where
  tree : List Bool
  prefix_bits : Nat
deriving DecidableEq, Repr
/-- `PrefixTree::leaf_data_len`. -/
def PfxTree.leafDataLen (pbits : Nat) : Nat := ((1 <<< pbits) + 7) >>> 3
/-- `PrefixTree::new`. -/
def PfxTree.new (pbits : Nat) : PfxTree :=
  { tree := List.replicate (2 <<< pbits) false, prefix_bits := pbits }
/-- `PrefixTree::has`. -/
def PfxTree.has (t : PfxTree) (p : Nat) : Option Bool :=
  t.tree[leafIndex p t.prefix_bits]?
/-- `PrefixTree::insert`. -/
def PfxTree.insert (t : PfxTree) (p : Nat) : PfxTree :=
  let idx := leafIndex p t.prefix_bits
  { t with tree := setAncestors (t.tree.set idx true) idx }
/-- `PrefixTree::remove`. -/
def PfxTree.remove (t : PfxTree) (p : Nat) : PfxTree :=
  let idx := leafIndex p t.prefix_bits
  { t with tree := removeAncestors (t.tree.set idx false) idx }
/-- Value of a byte of `BitVec<u8>` storage (least-significant bit first). -/
def bitsToByte (l : List Bool) : Nat :=
  l.foldr (fun b acc => acc * 2 + (if b then 1 else 0)) 0
def packBitsF : Nat → List Bool → List Nat
  | 0, _ => []
  | fuel + 1, l =>
    if l = [] then [] else bitsToByte (l.take 8) :: packBitsF fuel (l.drop 8)
/-- `BitVec::storage`: the bit-vector packed into bytes. -/
def packBits (l : List Bool) : List Nat := packBitsF (l.length + 1) l
/-- `PrefixTree::bytes`. -/
def PfxTree.bytes (t : PfxTree) : List Nat := packBits t.tree
/-- `PrefixTree::leaves`. -/
def PfxTree.leaves (t : PfxTree) : List Nat :=
  t.bytes.drop (leafIndex 0 t.prefix_bits / 8)
/-- `PrefixTree::from_leaves` (the `assert_eq!` on the length is a panic the
engine never hits; garbage high bits would panic in `BitVec::set` where
`List.set` ignores them). -/
def PfxTree.fromLeaves (data : List Nat) (pbits : Nat) : PfxTree :=
  (List.range data.length).foldl
    (fun t idx =>
      (List.range 8).foldl
        (fun t i =>
          if data.getD idx 0 &&& (1 <<< i) = 1 <<< i then t.insert (idx * 8 + i)
          else t)
        t)
    (PfxTree.new pbits)
def opiGoUpF : Nat → Nat → Nat
  | 0, idx => idx
  | fuel + 1, idx => if idx % 2 = 1 then opiGoUpF fuel (idx >>> 1) else idx
/-- The odd-index climb (`while idx % 2 == 1` then shift right) of
`OccupiedPrefixesIterator::next_idx`. -/
def opiGoUp (idx : Nat) : Nat := opiGoUpF (idx + 1) idx
/-- The main loop of `OccupiedPrefixesIterator::next_idx`. -/
def opiLoop (tree : List Bool) (firstLeaf : Nat) : Nat → Bool → Nat → Option Nat
  | _, _, 0 => none
  | idx, goBack, fuel + 1 =>
    if goBack then
      let idx' := opiGoUp idx + 1
      if idx' = 1 then none else opiLoop tree firstLeaf idx' false fuel
    else if firstLeaf ≤ idx then
      if tree.getD idx false then some idx
      else if idx % 2 = 0 then some (idx + 1)
      else
        let idx' := opiGoUp idx + 1
        if idx' = 1 then none else opiLoop tree firstLeaf idx' false fuel
    else if tree.getD idx false then opiLoop tree firstLeaf (idx <<< 1) false fuel
    else if idx % 2 = 0 then opiLoop tree firstLeaf (idx + 1) false fuel
    else
      let idx' := opiGoUp idx + 1
      if idx' = 1 then none else opiLoop tree firstLeaf idx' false fuel
/-- `OccupiedPrefixesIterator::next_idx`. -/
def opiNextIdx (tree : List Bool) (firstLeaf idx : Nat) : Option Nat :=
  let fuel := 4 * (tree.length + idx) + 64
  if idx % 2 = 1 then opiLoop tree firstLeaf idx true fuel
  else opiLoop tree firstLeaf (idx + 1) false fuel
/-- `OccupiedPrefixesIterator` collected into a list of occupied prefixes. -/
def opiCollect (tree : List Bool) (firstLeaf : Nat) : Nat → Nat → List Nat
  | _, 0 => []
  | idx, fuel + 1 =>
    match opiNextIdx tree firstLeaf idx with
    | none => []
    | some idx' => (idx' - firstLeaf) :: opiCollect tree firstLeaf idx' fuel
/-- `PrefixTree::prefixes_iter` collected into a list. -/
def PfxTree.pfxList (t : PfxTree) : List Nat :=
  opiCollect t.tree (leafIndex 0 t.prefix_bits) 0 (t.tree.length + 1)
/-! ### Metadata (src/metadata.rs) -/
/-- `metadata::Metadata`.  `occupied_bytes` is a `u64`; the `+=`/`-=` in the
record notifications wrap as release-mode Rust does. -/
structure Metadata where
  db_version : Nat
  occupied_bytes : Nat
  prefix_bits : Nat
  prefixes : PfxTree
  collided_prefixes : PfxTree
deriving DecidableEq, Repr
/-- `Metadata::insert_record`. -/
def Metadata.insertRecord (m : Metadata) (p : Nat) (len : Nat) : Metadata :=
  { m with occupied_bytes := (m.occupied_bytes + len) % 2 ^ 64
           prefixes := m.prefixes.insert p }
/-- `Metadata::remove_record`. -/
def Metadata.removeRecord (m : Metadata) (len : Nat) : Metadata :=
  { m with occupied_bytes := (m.occupied_bytes + 2 ^ 64 - len % 2 ^ 64) % 2 ^ 64 }
/-- `Metadata::update_record_len`. -/
def Metadata.updateRecordLen (m : Metadata) (oldLen newLen : Nat) : Metadata :=
  { m with occupied_bytes :=
      ((m.occupied_bytes + 2 ^ 64 - oldLen % 2 ^ 64) % 2 ^ 64 + newLen) % 2 ^ 64 }
/-- `Metadata::add_prefix_collision`. -/
def Metadata.addPrefixCollision (m : Metadata) (p : Nat) : Metadata :=
  { m with collided_prefixes := m.collided_prefixes.insert p
           prefixes := m.prefixes.remove p }
/-- `metadata::bytes::prefix_leaves_offset`. -/
def prefixLeavesOffset : Nat := 2 + 8
/-- `metadata::bytes::collided_prefix_leaves_offset`. -/
def collidedLeavesOffset (pbits : Nat) : Nat :=
  prefixLeavesOffset + PfxTree.leafDataLen pbits
/-- `metadata::bytes::len`. -/
def metaBytesLen (pbits : Nat) : Nat :=
  collidedLeavesOffset pbits + PfxTree.leafDataLen pbits
/-- `metadata::bytes::Metadata::copy_to_slice` into a buffer of exactly
`metaBytesLen` bytes: version, occupied bytes, the two leaf vectors. -/
def metaImage (m : Metadata) : List Nat :=
  leBytes 2 m.db_version ++ leBytes 8 m.occupied_bytes ++
    m.prefixes.leaves ++ m.collided_prefixes.leaves
/-- `metadata::bytes::read` (the `assert_eq!` on the version is a panic,
modelled as `none`). -/
def metaRead (data : List Nat) (pbits : Nat) : Option Metadata :=
  let v := readLE (data.take 2)
  let occ := readLE ((data.drop 2).take 8)
  let pl := (data.drop prefixLeavesOffset).take (PfxTree.leafDataLen pbits)
  let cl := (data.drop (collidedLeavesOffset pbits)).take (PfxTree.leafDataLen pbits)
  if v ≠ 0 then none
  else some
    { db_version := v
      occupied_bytes := occ
      prefix_bits := pbits
      prefixes := PfxTree.fromLeaves pl pbits
      collided_prefixes := PfxTree.fromLeaves cl pbits }
/-! ### Operation writer (src/flush/writer.rs) -/
/-- The writer state: the operation stream (peeked via `head?`), the space
iterator cursor, the metadata being updated, and the operation buffer
(`inner` plus `denoted_operation_start`). -/
structure WState where
  ops : List Op
  spOffset : Nat
  md : Metadata
  buf : List Nat
  denoted : Option Nat
  shift : Int
deriving DecidableEq, Repr
/-- `OperationBuffer::denote_operation_start`. -/
def bufDenote (buf : List Nat) (denoted : Option Nat) (offset : Nat) :
    List Nat × Option Nat :=
  match denoted with
  | some _ => (buf, denoted)
  | none => (buf ++ leBytes 8 offset ++ [0, 0, 0, 0], some buf.length)
/-- `OperationBuffer::finish_operation`. -/
def bufFinish (buf : List Nat) (denoted : Option Nat) : List Nat :=
  match denoted with
  | none => buf
  | some start => setRange buf (start + 8) (leBytes 4 (buf.length - (start + 12)))
/-- `diff` of the negative-shift occupied case of
`OperationWriter::last_step`: `space.offset - (-shift) - min_offset`. -/
def lastStepDiff (soff : Nat) (shift : Int) (sdata : List Nat)
    (pbits fbs : Nat) : Int :=
  (soff : Int) - -shift - (minOffsetForSpace sdata pbits fbs : Int)
/-- `OperationWriter::last_step`: drain the space iterator while
`shift ≠ 0`, then pad a negative shift and finish the open operation. -/
def lastStep (db : List Nat) (fbs pbits : Nat) : Nat → WState → Except DbError WState
  | 0, _ => .error .fuelOut
  | fuel + 1, s =>
    match spaceNext db fbs s.spOffset with
    | none =>
      if s.shift < 0 then
        .ok { s with buf := bufFinish (s.buf ++ zeros (-s.shift).toNat) s.denoted,
                     denoted := none }
      else .ok { s with buf := bufFinish s.buf s.denoted, denoted := none }
    | some sp =>
      if s.shift = 0 then
        .ok { s with buf := bufFinish s.buf s.denoted, denoted := none }
      else
        match sp with
        | .error e => .error (.fieldE e)
        | .ok (space, newOff) =>
          match space with
          | .empty _ elen =>
            if s.shift > 0 then
              lastStep db fbs pbits fuel
                { s with spOffset := newOff, shift := s.shift - elen }
            else lastStep db fbs pbits fuel { s with spOffset := newOff }
          | .occupied soff sdata =>
            if s.shift > 0 then
              lastStep db fbs pbits fuel
                { s with spOffset := newOff, buf := s.buf ++ sdata }
            else if isMinOffsetForSpace soff s.shift sdata pbits fbs then
              lastStep db fbs pbits fuel
                { s with spOffset := newOff, buf := s.buf ++ sdata }
            else if lastStepDiff soff s.shift sdata pbits fbs < 0 then
              lastStep db fbs pbits fuel
                { s with spOffset := newOff,
                         buf := s.buf ++
                           zeros (-lastStepDiff soff s.shift sdata pbits fbs).toNat ++ sdata,
                         shift := s.shift + -lastStepDiff soff s.shift sdata pbits fbs }
            else
              lastStep db fbs pbits fuel
                { s with spOffset := newOff,
                         buf := s.buf ++
                           zeros (-s.shift + lastStepDiff soff s.shift sdata pbits fbs).toNat ++ sdata,
                         shift := lastStepDiff soff s.shift sdata pbits fbs }
/-- Start of `OperationWriter::step`: when `shift = 0` the open operation is
finished and the space iterator jumps forward to the peeked key's slot. -/
def wstepPre (s : WState) (pfx fbs : Nat) : WState :=
  if s.shift = 0 then
    { s with buf := bufFinish s.buf s.denoted, denoted := none,
             spOffset := spaceMoveForward s.spOffset (pfx * fieldSize fbs) }
  else s
/-- Body of `OperationWriter::step` after the `shift = 0` pre-update `t`:
peek a space, take the `decision`, recurse through `wrec`. -/
def wstepBody (db : List Nat) (fbs pbits : Nat) (constValue : Bool)
    (wrec : WState → Except DbError WState)
    (op : Op) (restOps : List Op) (pfx : Nat) (t : WState) :
    Except DbError WState :=
  match spaceNext db fbs t.spOffset with
  | none => .error .expectPanic
  | some (.error e) => .error (.fieldE e)
  | some (.ok (space, newOff)) =>
    match decision op space t.shift fbs pbits with
    | .insertOperationIntoEmptySpace key value offset spaceLen =>
      wrec
        { t with ops := restOps, spOffset := newOff,
                 buf := appendRecord (bufDenote t.buf t.denoted offset).1
                   key value fbs constValue,
                 denoted := (bufDenote t.buf t.denoted offset).2,
                 shift := t.shift + (recordBytes key value fbs constValue).length
                   - spaceLen,
                 md := t.md.insertRecord pfx
                   (recordBytes key value fbs constValue).length }
    | .insertOperationBeforeOccupiedSpace key value offset =>
      wrec
        { t with ops := restOps,
                 buf := appendRecord (bufDenote t.buf t.denoted offset).1
                   key value fbs constValue,
                 denoted := (bufDenote t.buf t.denoted offset).2,
                 shift := t.shift + (recordBytes key value fbs constValue).length,
                 md := t.md.insertRecord pfx
                   (recordBytes key value fbs constValue).length }
    | .overwriteOperation key value offset oldLen =>
      wrec
        { t with ops := restOps, spOffset := newOff,
                 buf := appendRecord (bufDenote t.buf t.denoted offset).1
                   key value fbs constValue,
                 denoted := (bufDenote t.buf t.denoted offset).2,
                 shift := t.shift + (recordBytes key value fbs constValue).length
                   - oldLen,
                 md := t.md.updateRecordLen oldLen
                   (recordBytes key value fbs constValue).length }
    | .seekSpace =>
      wrec { t with spOffset := newOff }
    | .ignoreOperation =>
      wrec { t with ops := restOps }
    | .consumeEmptySpace len =>
      wrec { t with spOffset := newOff, shift := t.shift - len }
    | .shiftOccupiedSpace sdata =>
      wrec { t with spOffset := newOff, buf := t.buf ++ sdata }
    | .finishBackwardShift =>
      if t.shift < 0 then
        wrec { t with buf := t.buf ++ zeros (-t.shift).toNat, shift := 0 }
      else .error .expectPanic
    | .deleteOperation offset len =>
      wrec
        { t with ops := restOps, spOffset := newOff,
                 buf := (bufDenote t.buf t.denoted offset).1,
                 denoted := (bufDenote t.buf t.denoted offset).2,
                 shift := t.shift - len,
                 md := t.md.removeRecord len }
/-- `OperationWriter::step` iterated by `run`: one step per unit of fuel;
`none` from the space peek is the source's `expect("TODO: db end?")`. -/
def wrun (db : List Nat) (fbs pbits : Nat) (constValue : Bool) :
    Nat → WState → Except DbError WState
  | 0, _ => .error .fuelOut
  | fuel + 1, s =>
    match s.ops with
    | [] => lastStep db fbs pbits (db.length + 2) s
    | op :: restOps =>
      wstepBody db fbs pbits constValue (wrun db fbs pbits constValue fuel)
        op restOps (readPfx op.key pbits)
        (wstepPre s (readPfx op.key pbits) fbs)
/-- The tail of `OperationWriter::run`: the flush data is the operation
buffer followed by the serialized final metadata. -/
def writerFinish : Except DbError WState → Except DbError (List Nat × Metadata)
  | .error e => .error e
  | .ok s => .ok (s.buf ++ metaImage s.md, s.md)
/-- `OperationWriter::new` followed by `run`: returns the flush data (the
idempotent-operation buffer followed by the serialized final metadata) and
that final metadata. -/
def writerRun (ops : List Op) (db : List Nat) (md : Metadata)
    (fbs pbits : Nat) (constValue : Bool) :
    Except DbError (List Nat × Metadata) :=
  writerFinish (wrun db fbs pbits constValue (2 * ops.length + db.length + 16)
    { ops, spOffset := 0, md, buf := [], denoted := none, shift := 0 })
/-! ### SHA3-256 (tiny_keccak) -/
/-- The 24 Keccak round constants. -/
def keccakRC : List Nat :=
  [0x0000000000000001, 0x0000000000008082, 0x800000000000808A] ++
  [0x8000000080008000, 0x000000000000808B, 0x0000000080000001] ++
  [0x8000000080008081, 0x8000000000008009, 0x000000000000008A] ++
  [0x0000000000000088, 0x0000000080008009, 0x000000008000000A] ++
  [0x000000008000808B, 0x800000000000008B, 0x8000000000008089] ++
  [0x8000000000008003, 0x8000000000008002, 0x8000000000000080] ++
  [0x000000000000800A, 0x800000008000000A, 0x8000000080008081] ++
  [0x8000000000008080, 0x0000000080000001, 0x8000000080008008]
/-- The Keccak rotation offsets, indexed `x + 5*y`. -/
def rhoOffsets : List Nat :=
  [0, 1, 62, 28, 27] ++
  [36, 44, 6, 55, 20] ++
  [3, 10, 43, 25, 39] ++
  [41, 45, 15, 21, 8] ++
  [18, 2, 61, 56, 14]
/-- 64-bit rotate left. -/
def rotl64 (x n : Nat) : Nat :=
  ((x <<< (n % 64)) ||| (x >>> (64 - n % 64))) % 2 ^ 64
/-- Lane `(x, y)` of a Keccak state (a list of 25 lanes). -/
def lane (s : List Nat) (x y : Nat) : Nat := s.getD (x % 5 + 5 * (y % 5)) 0
/-- Keccak θ column parity. -/
def thetaC (s : List Nat) (x : Nat) : Nat :=
  lane s x 0 ^^^ lane s x 1 ^^^ lane s x 2 ^^^ lane s x 3 ^^^ lane s x 4
/-- Keccak θ step. -/
def theta (s : List Nat) : List Nat :=
  (List.range 25).map (fun j =>
    lane s (j % 5) (j / 5) ^^^
      (thetaC s ((j % 5 + 4) % 5) ^^^ rotl64 (thetaC s ((j % 5 + 1) % 5)) 1))
/-- Keccak ρ and π steps combined. -/
def rhoPi (s : List Nat) : List Nat :=
  (List.range 25).map (fun j =>
    let y := j % 5
    let x := (3 * (j / 5) + y) % 5
    rotl64 (lane s x y) (rhoOffsets.getD (x + 5 * y) 0))
/-- Keccak χ step. -/
def chi (s : List Nat) : List Nat :=
  (List.range 25).map (fun j =>
    lane s (j % 5) (j / 5) ^^^
      (((2 ^ 64 - 1) ^^^ lane s (j % 5 + 1) (j / 5)) &&& lane s (j % 5 + 2) (j / 5)))
/-- Keccak ι step. -/
def iotaStep (s : List Nat) (rc : Nat) : List Nat :=
  (List.range 25).map (fun j => if j = 0 then lane s 0 0 ^^^ rc else s.getD j 0)
/-- One Keccak-f[1600] round. -/
def keccakRound (s : List Nat) (rc : Nat) : List Nat :=
  iotaStep (chi (rhoPi (theta s))) rc
/-- Keccak-f[1600]. -/
def keccakF (s : List Nat) : List Nat := keccakRC.foldl keccakRound s
/-- SHA3 padding (domain `0x06`, rate 136). -/
def sha3Pad (msg : List Nat) : List Nat :=
  let padLen := 136 - msg.length % 136
  if padLen = 1 then msg ++ [0x86]
  else msg ++ [0x06] ++ zeros (padLen - 2) ++ [0x80]
/-- The 17 rate lanes of a 136-byte block. -/
def bytesToLanes (block : List Nat) : List Nat :=
  (List.range 17).map (fun i => readLE ((block.drop (8 * i)).take 8))
/-- Absorb one 136-byte block. -/
def absorbBlock (s : List Nat) (block : List Nat) : List Nat :=
  keccakF ((List.range 25).map (fun j =>
    if j < 17 then s.getD j 0 ^^^ (bytesToLanes block).getD j 0 else s.getD j 0))
def absorbAllF : Nat → List Nat → List Nat → List Nat
  | 0, s, _ => s
  | fuel + 1, s, data =>
    if data = [] then s
    else absorbAllF fuel (absorbBlock s (data.take 136)) (data.drop 136)
/-- Absorb a whole padded message. -/
def absorbAll (s : List Nat) (data : List Nat) : List Nat :=
  absorbAllF (data.length + 1) s data
/-- A Keccak state as 200 little-endian bytes. -/
def lanesToBytes (s : List Nat) : List Nat :=
  ((List.range 25).map (fun i => leBytes 8 (s.getD i 0))).flatten
/-- SHA3-256 of a byte string. -/
def sha3_256 (msg : List Nat) : List Nat :=
  (lanesToBytes (absorbAll (List.replicate 25 0) (sha3Pad msg))).take 32
/-! ### Flush artifact (src/flush/flush.rs, src/flush/iterator.rs) -/
/-- `flush::Flush`: the mapped `db.flush` bytes, the prefix bits, and the
post-flush metadata. -/
structure Flush where
  fileBytes : List Nat
  prefix_bits : Nat
  md : Metadata
deriving DecidableEq, Repr
/-- `Flush::new`: run the operation writer and lay the file out as
`SHA3-256(flush_data) || flush_data`. -/
def Flush.new (io : InternalOptions) (db : List Nat) (md : Metadata)
    (ops : List Op) : Except DbError Flush :=
  match writerRun ops db md io.field_body_size io.external.key_index_bits
      io.external.value_len.isConst with
  | .error e => .error e
  | .ok (flushData, md') =>
    .ok { fileBytes := sha3_256 flushData ++ flushData
          prefix_bits := io.external.key_index_bits
          md := md' }
def parseIdopsF : Nat → List Nat → Option (List (Nat × List Nat))
  | 0, _ => none
  | fuel + 1, data =>
    if data = [] then some []
    else if data.length < 12 then none
    else
      let len := readLE ((data.drop 8).take 4)
      if data.length < 12 + len then none
      else
        match parseIdopsF fuel (data.drop (12 + len)) with
        | none => none
        | some rest => some ((readLE (data.take 8), (data.drop 12).take len) :: rest)
/-- `IdempotentOperationIterator` collected into a list; `none` models the
slicing panics on malformed input (each entry consumes at least 12 bytes,
so the fuel always suffices). -/
def parseIdops (data : List Nat) : Option (List (Nat × List Nat)) :=
  parseIdopsF (data.length + 1) data
/-- `db[o.offset..o.offset + o.data.len()].copy_from_slice(o.data)` for each
idempotent operation (`none` models the out-of-bounds panic). -/
def applyIdops (db : List Nat) : List (Nat × List Nat) → Option (List Nat)
  | [] => some db
  | (off, bytes) :: rest =>
    if off + bytes.length ≤ db.length then applyIdops (setRange db off bytes) rest
    else none
/-- `Flush::flush`: apply the idempotent operations to the data bytes,
overwrite the raw metadata image, and replace the in-memory metadata with
the flush's copy.  Returns the new data bytes, raw metadata bytes and
metadata. -/
def flushApplyCore (opsRegion meta : List Nat) (mdv : Metadata)
    (db rawMeta : List Nat) : Option (List Nat × List Nat × Metadata) :=
  match parseIdops opsRegion with
  | none => none
  | some ops =>
    match applyIdops db ops with
    | none => none
    | some db' =>
      if rawMeta.length = meta.length then some (db', meta, mdv) else none

def Flush.apply (f : Flush) (db : List Nat) (rawMeta : List Nat) :
    Option (List Nat × List Nat × Metadata) :=
  flushApplyCore
    ((f.fileBytes.drop 32).take
      (f.fileBytes.length - metaBytesLen f.prefix_bits - 32))
    (f.fileBytes.drop (f.fileBytes.length - metaBytesLen f.prefix_bits))
    f.md db rawMeta
/-- The last write covering byte `i` in a list of idempotent operations
(proof helper for flush idempotence). -/
def lastWrite (ops : List (Nat × List Nat)) (i : Nat) : Option Nat :=
  ops.foldl
    (fun acc op =>
      if op.1 ≤ i ∧ i < op.1 + op.2.length then op.2[i - op.1]? else acc)
    none
/-- Bit `i` of a key read most-significant-bit first: bit `7 - i % 8` of byte
`i / 8`. -/
def bitAt (key : List Nat) (i : Nat) : Nat :=
  (key.getD (i / 8) 0 >>> (7 - i % 8)) &&& 1
/-- Modelled from the spec: the "integer formed by the first `prefix_bits`
bits of the key read most-significant-bit first" (claim C7's reference value,
to compare with `readPfx` from the source). -/
def pfxSpec (key : List Nat) (pbits : Nat) : Nat :=
  ((List.range pbits).map (fun i => bitAt key i * 2 ^ (pbits - 1 - i))).sum
/-- Big-endian numeric value of a byte string (proof helper). -/
def beNat (l : List Nat) : Nat := l.foldl (fun a b => a * 256 + b) 0
/-- Concrete options used by counterexamples and witnesses: 1-bit key index,
1-byte keys, empty constant values. -/
def c5opts : Options :=
  { journal_eras := 0
    extend_threshold_percent := 80
    key_index_bits := 1
    key_len := 1
    value_len := .constant 0
    max_prefix_collisions := 6 }
/-- The internal options `InternalOptions::from_external` derives from
`c5opts` (its data file is `2^(1+2) * 2 = 16` bytes, not `(2^1+1) * 2 = 6`). -/
def c5io : InternalOptions :=
  { external := c5opts
    value_size := .constSize 0
    field_body_size := 1
    initial_db_size := 16
    record_offset := 2 }

/-- Shape invariants of a `Metadata` value for `prefix_bits = pbits`: the
version is 0 and both trees have the bit-vector size `PrefixTree::new`
allocates.  Every metadata the engine builds satisfies this. -/
def Metadata.wf (m : Metadata) (pbits : Nat) : Prop :=
  m.prefix_bits = pbits ∧
  m.prefixes.prefix_bits = pbits ∧
  m.collided_prefixes.prefix_bits = pbits ∧
  m.prefixes.tree.length = 2 <<< pbits ∧
  m.collided_prefixes.tree.length = 2 <<< pbits
/-- The minimum-slot guard expressed on a flush artifact's parsed write
ranges: every `Inserted` field header inside a range sits at a destination
offset at least `prefix * field_size` for the record's key prefix (claim
C3's property). -/
def minSlotOk (ranges : List (Nat × List Nat)) (pbits fbs : Nat) : Bool :=
  ranges.all (fun r =>
    (List.range (r.2.length / fieldSize fbs)).all (fun j =>
      if r.2.getD (j * fieldSize fbs) 0 = 1 then
        decide (minOffsetForSpace (r.2.drop (j * fieldSize fbs)) pbits fbs ≤
          r.1 + j * fieldSize fbs)
      else true))
/-- C3's failing data file: records `[1,64]` (prefix 1) and `[1,128]`
(prefix 2) each at their minimum slots, `field_body_size = 1`,
`key_index_bits = 2`. -/
def c3db : List Nat := setRange (setRange (zeros 32) 2 [1, 64]) 4 [1, 128]
/-- C3's metadata before the failing flush. -/
def c3md : Metadata :=
  { db_version := 0
    occupied_bytes := 4
    prefix_bits := 2
    prefixes := ((PfxTree.new 2).insert 1).insert 2
    collided_prefixes := PfxTree.new 2 }
/-- C3's failing flush batch, run through the operation writer: delete the
key `[64]`, then insert (overwrite) the key `[128]` while the shift is
negative. -/
def c3run : Except DbError (List Nat × Metadata) :=
  writerRun [Op.delete [64], Op.insert [128] []] c3db c3md 1 2 true
/-- The idempotent write ranges of C3's failing flush. -/
def c3ranges : List (Nat × List Nat) :=
  match c3run with
  | .ok (flushData, _) =>
    (parseIdops (flushData.take (flushData.length - metaBytesLen 2))).getD []
  | .error _ => []
/-- A concrete flush artifact (for the C2 witness): one one-byte write at
offset 0, `prefix_bits = 1`. -/
def c2md : Metadata :=
  { db_version := 0
    occupied_bytes := 0
    prefix_bits := 1
    prefixes := PfxTree.new 1
    collided_prefixes := PfxTree.new 1 }
/-- The C2 witness artifact: 32 checksum bytes, the range `(0, [7])`, and a
zeroed 12-byte metadata image. -/
def c2flush : Flush :=
  { fileBytes := zeros 32 ++ (leBytes 8 0 ++ leBytes 4 1 ++ [7]) ++ zeros 12
    prefix_bits := 1
    md := c2md }
/-- Fresh metadata for `prefix_bits = 1` (C4's scenario). -/
def c4md0 : Metadata :=
  { db_version := 0
    occupied_bytes := 0
    prefix_bits := 1
    prefixes := PfxTree.new 1
    collided_prefixes := PfxTree.new 1 }
/-- C4's scenario: flush a single insert of key `[0]` (empty value) into a
fresh `c5opts` database. -/
def c4run : Except DbError Flush :=
  Flush.new c5io (createDataFile c5io) c4md0 [Op.insert [0] []]
/-- The flush artifact C4's scenario produces. -/
def c4flush : Flush :=
  match c4run with
  | .ok f => f
  | .error _ => { fileBytes := [], prefix_bits := 0, md := c4md0 }
/-- The idempotent-write-range body of C4's artifact. -/
def c4body : List Nat := [0, 0, 0, 0, 0, 0, 0, 0, 2, 0, 0, 0, 1, 0]
/-- The metadata image of C4's artifact. -/
def c4meta : List Nat := [0, 0, 2, 0, 0, 0, 0, 0, 0, 0, 6, 0]

/-! ### Transactions (src/transaction.rs) -/
/-- `transaction::Transaction`: the configured key length and the serialized
operation buffer. -/
structure Transaction where
  key_len : Nat
  operations : List Nat
deriving DecidableEq, Repr
/-- `Transaction::new`. -/
def Transaction.new (keyLen : Nat) : Transaction :=
  { key_len := keyLen, operations := [] }
/-- `Operation::write_to_buf`: `[type, u32 sizes, data]` appended to the
buffer (`as u32` casts truncate, which `leBytes 4` reproduces). -/
def opWriteToBuf (op : Op) (buf : List Nat) : List Nat :=
  match op with
  | .insert key value =>
    buf ++ [0] ++ leBytes 4 key.length ++ leBytes 4 value.length ++ key ++ value
  | .delete key => buf ++ [1] ++ leBytes 4 key.length ++ key
/-- `Transaction::insert`: the pair holds the transaction after the call and
the returned error; Rust only mutates the buffer in the success branch. -/
def Transaction.insert (t : Transaction) (key value : List Nat) :
    Transaction × Option DbError :=
  if key.length ≠ t.key_len then (t, some (.invalidKeyLen t.key_len key.length))
  else ({ t with operations := opWriteToBuf (.insert key value) t.operations }, none)
/-- `Transaction::delete`. -/
def Transaction.delete (t : Transaction) (key : List Nat) :
    Transaction × Option DbError :=
  if key.length ≠ t.key_len then (t, some (.invalidKeyLen t.key_len key.length))
  else ({ t with operations := opWriteToBuf (.delete key) t.operations }, none)
/-- `Operation::read_from_buf` iterated by `OperationsIterator::next` and
collected into a list; `none` models the `expect` and the slicing panics on
malformed buffers.  Each entry consumes at least 5 bytes, so fuel
`length + 1` always suffices. -/
def parseOpsF : Nat → List Nat → Option (List Op)
  | 0, _ => none
  | fuel + 1, buf =>
    match buf with
    | [] => some []
    | b :: _ =>
      if b = 0 then
        if buf.length < 9 + readLE ((buf.drop 1).take 4)
            + readLE ((buf.drop 5).take 4) then none
        else
          match parseOpsF fuel (buf.drop (9 + readLE ((buf.drop 1).take 4)
              + readLE ((buf.drop 5).take 4))) with
          | none => none
          | some rest =>
            some (.insert ((buf.drop 9).take (readLE ((buf.drop 1).take 4)))
              ((buf.drop (9 + readLE ((buf.drop 1).take 4))).take
                (readLE ((buf.drop 5).take 4))) :: rest)
      else if b = 1 then
        if buf.length < 5 + readLE ((buf.drop 1).take 4) then none
        else
          match parseOpsF fuel (buf.drop (5 + readLE ((buf.drop 1).take 4))) with
          | none => none
          | some rest =>
            some (.delete ((buf.drop 5).take (readLE ((buf.drop 1).take 4)))
              :: rest)
      else none
/-- `Transaction::operations` / `OperationsIterator` over a raw buffer. -/
def parseOps (buf : List Nat) : Option (List Op) :=
  parseOpsF (buf.length + 1) buf
/-! ### Journal (src/journal.rs) -/
/-- `journal::Journal`: the eras oldest-first; each era is the raw
serialized transaction bytes (`JournalEra::create` writes
`sha3_256(raw) || raw` and `open` validates and strips the checksum, so the
raw bytes round-trip). -/
structure Journal where
  eras : List (List Nat)
deriving DecidableEq, Repr
/-- `Journal::push` (`JournalEra::create` on the transaction's raw bytes). -/
def Journal.push (j : Journal) (t : Transaction) : Journal :=
  { eras := j.eras ++ [t.operations] }
/-- `Journal::len`. -/
def Journal.len (j : Journal) : Nat := j.eras.length
/-- `JournalEra::get` on the parsed operation cache: the `HashMap` built in
`cache_memory` keeps the last operation for each key. -/
def eraGetOp (ops : List Op) (key : List Nat) : Option (Option (List Nat)) :=
  ops.foldl
    (fun acc op =>
      match op with
      | .insert k v => if k = key then some (some v) else acc
      | .delete k => if k = key then some none else acc)
    none
/-- `Journal::get` walks the eras newest-first; a journaled `Delete` makes
the lookup return `None` (the caller then falls through to the data file). -/
def journalGetRev (key : List Nat) : List (List Nat) → Except DbError (Option (List Nat))
  | [] => .ok none
  | raw :: rest =>
    match parseOps raw with
    | none => .error .expectPanic
    | some ops =>
      match eraGetOp ops key with
      | some (some v) => .ok (some v)
      | some none => .ok none
      | none => journalGetRev key rest
/-- `Journal::get`. -/
def Journal.get (j : Journal) (key : List Nat) : Except DbError (Option (List Nat)) :=
  journalGetRev key j.eras.reverse
/-- `BTreeSet<Operation>::replace` (operations are ordered by key; the new
operation replaces an equal-keyed one). -/
def insertReplace : List Op → Op → List Op
  | [], op => [op]
  | o :: rest, op =>
    match cmpBytes op.key o.key with
    | .lt => op :: o :: rest
    | .eq => op :: rest
    | .gt => o :: insertReplace rest op
/-- `JournalEra::operations`: the era's operations collected into a
`BTreeSet` with `replace` semantics (sorted by key, later wins). -/
def eraSorted (ops : List Op) : List Op := ops.foldl insertReplace []
/-! ### Collision files (src/collision.rs) -/
/-- `collision::Collision`: the log file bytes, the write handle's cursor,
and the in-memory index (a `BTreeMap` ordered by key) mapping each live key
to its log position and entry size. -/
structure Collision where
  pfx : Nat
  contents : List Nat
  filePos : Nat
  index : List (List Nat × Nat × Nat)
deriving DecidableEq, Repr
/-- `LogEntry::ENTRY_TOMBSTONE` (`!0u32`). -/
def tombstone : Nat := 4294967295
/-- The bytes `LogEntry::write` appends for a live entry. -/
def logInsertBytes (key value : List Nat) : List Nat :=
  leBytes 4 key.length ++ key ++ leBytes 4 value.length ++ value
/-- The bytes `LogEntry::write_deleted` appends for a tombstone. -/
def logDeleteBytes (key : List Nat) : List Nat :=
  leBytes 4 key.length ++ key ++ leBytes 4 tombstone
/-- A file write at the handle's cursor (`write_all`): overwrites in place
and extends the file past its end. -/
def writeAt (file : List Nat) (off : Nat) (src : List Nat) : List Nat :=
  file.take off ++ src ++ file.drop (off + src.length)
/-- `LogEntry::read` at a position: `(consumed, key, value?)`; `none` models
the slicing panics on malformed data. -/
def logReadAt (data : List Nat) (pos : Nat) :
    Option (Nat × List Nat × Option (List Nat)) :=
  if data.length < pos + 4 + readLE ((data.drop pos).take 4) + 4 then none
  else if readLE ((data.drop (pos + 4 + readLE ((data.drop pos).take 4))).take 4)
      = tombstone then
    some (4 + readLE ((data.drop pos).take 4) + 4,
      (data.drop (pos + 4)).take (readLE ((data.drop pos).take 4)), none)
  else if data.length < pos + 8 + readLE ((data.drop pos).take 4)
      + readLE ((data.drop (pos + 4 + readLE ((data.drop pos).take 4))).take 4) then
    none
  else
    some (4 + readLE ((data.drop pos).take 4) + 4
        + readLE ((data.drop (pos + 4 + readLE ((data.drop pos).take 4))).take 4),
      (data.drop (pos + 4)).take (readLE ((data.drop pos).take 4)),
      some ((data.drop (pos + 8 + readLE ((data.drop pos).take 4))).take
        (readLE ((data.drop (pos + 4 + readLE ((data.drop pos).take 4))).take 4))))
/-- `LogIterator` collected into `(position, key, value?)` entries. -/
def logEntriesF (data : List Nat) : Nat → Nat → Option (List (Nat × List Nat × Option (List Nat)))
  | 0, _ => none
  | fuel + 1, pos =>
    if data.length ≤ pos then some []
    else
      match logReadAt data pos with
      | none => none
      | some (consumed, key, v) =>
        match logEntriesF data fuel (pos + consumed) with
        | none => none
        | some rest => some ((pos, key, v) :: rest)
/-- The whole collision log parsed (each entry consumes at least 8 bytes). -/
def logEntries (data : List Nat) : Option (List (Nat × List Nat × Option (List Nat))) :=
  logEntriesF data (data.length + 1) 0
/-- `BTreeMap::insert` on the key-ordered index. -/
def assocInsert : List (List Nat × Nat × Nat) → List Nat → Nat × Nat →
    List (List Nat × Nat × Nat)
  | [], k, e => [(k, e)]
  | (k0, e0) :: rest, k, e =>
    match cmpBytes k k0 with
    | .lt => (k, e) :: (k0, e0) :: rest
    | .eq => (k, e) :: rest
    | .gt => (k0, e0) :: assocInsert rest k e
/-- `BTreeMap::remove` on the key-ordered index. -/
def assocRemove : List (List Nat × Nat × Nat) → List Nat →
    List (List Nat × Nat × Nat)
  | [], _ => []
  | (k0, e0) :: rest, k => if k0 = k then rest else (k0, e0) :: assocRemove rest k
/-- `BTreeMap::get` on the key-ordered index. -/
def assocFind : List (List Nat × Nat × Nat) → List Nat → Option (Nat × Nat)
  | [], _ => none
  | (k0, e0) :: rest, k => if k0 = k then some e0 else assocFind rest k
/-- `Collision::build_index`: fold the log, live entries insert
`(position, LogEntry::len)`, tombstones remove. -/
def buildIndex (entries : List (Nat × List Nat × Option (List Nat))) :
    List (List Nat × Nat × Nat) :=
  entries.foldl
    (fun idx e =>
      match e.2.2 with
      | some v => assocInsert idx e.2.1 (e.1, 8 + e.2.1.length + v.length)
      | none => assocRemove idx e.2.1)
    []
/-- `Collision::create`: `set_len(1)` leaves one zero byte, the write cursor
sits at 0, and the index starts empty (it is not built from the file). -/
def Collision.create (p : Nat) : Collision :=
  { pfx := p, contents := [0], filePos := 0, index := [] }
/-- `Collision::get`. -/
def Collision.get (c : Collision) (key : List Nat) : Except DbError (Option (List Nat)) :=
  match assocFind c.index key with
  | none => .ok none
  | some (pos, _) =>
    match logReadAt c.contents pos with
    | none => .error .expectPanic
    | some (_, k, v) =>
      if k = key then
        match v with
        | some value => .ok (some value)
        | none => .error .expectPanic
      else .error .expectPanic
/-- `Collision::rebuild_index` (re-map the file and `build_index`). -/
def Collision.rebuildIndex (c : Collision) : Except DbError Collision :=
  match logEntries c.contents with
  | none => .error .expectPanic
  | some entries => .ok { c with index := buildIndex entries }
/-- `Collision::insert`: early return when the key already holds the same
value; otherwise append `{u32 klen, key, u32 vlen, value}` at the cursor,
rebuild the index, and point the key at the new entry. -/
def Collision.insert (c : Collision) (key value : List Nat) : Except DbError Collision :=
  match c.get key with
  | .error e => .error e
  | .ok cur =>
    if cur = some value then .ok c
    else
      match Collision.rebuildIndex
          { c with contents := writeAt c.contents c.filePos (logInsertBytes key value),
                   filePos := c.filePos + (logInsertBytes key value).length } with
      | .error e => .error e
      | .ok c2 =>
        match logReadAt c2.contents c.filePos with
        | none => .error .expectPanic
        | some (_, k, _) =>
          if k = key then
            .ok { c2 with index := assocInsert c2.index key (c.filePos, 8 + key.length + value.length) }
          else .error .expectPanic
/-- `Collision::delete`: only when the key is in the index, append a
tombstone entry and rebuild. -/
def Collision.delete (c : Collision) (key : List Nat) : Except DbError Collision :=
  match assocFind c.index key with
  | none => .ok c
  | some _ =>
    Collision.rebuildIndex
      { c with index := assocRemove c.index key,
               contents := writeAt c.contents c.filePos (logDeleteBytes key),
               filePos := c.filePos + (logDeleteBytes key).length }
/-- `Collision::apply`. -/
def Collision.apply (c : Collision) (op : Op) : Except DbError Collision :=
  match op with
  | .delete key => c.delete key
  | .insert key value => c.insert key value
/-! ### Record lookup (src/find.rs) -/
/-- `find::RecordResult`, with `Found` carrying the record's value bytes
(`Value::from(record)` reads the value view). -/
inductive RecordResult where
  | found (value : List Nat)
  | notFound
  | outOfRange
deriving DecidableEq, Repr
/-- The value bytes of `Record::new` at the head of `slice`. -/
def recordValue (slice : List Nat) (fbs : Nat) (vs : ValueSize) (keySize : Nat) :
    List Nat :=
  match vs with
  | .constSize s => fvRead slice fbs keySize s
  | .variableSize =>
    fvRead slice fbs (keySize + recordHeaderSize)
      (readLE (fvRead slice fbs keySize recordHeaderSize))
/-- The header walk of `find_record` (one field per iteration). -/
def findRecordF (data : List Nat) (fbs : Nat) (vs : ValueSize) (key : List Nat) :
    Nat → Nat → Except DbError RecordResult
  | 0, _ => .error .fuelOut
  | fuel + 1, offset =>
    if data.length ≤ offset then .ok .outOfRange
    else
      match headerOfByte (data.getD offset 0) with
      | .error e => .error (.fieldE e)
      | .ok .uninit => .ok .notFound
      | .ok .continued => findRecordF data fbs vs key fuel (offset + fieldSize fbs)
      | .ok .inserted =>
        match cmpBytes (extractKey (data.drop offset) fbs key.length) key with
        | .lt => findRecordF data fbs vs key fuel (offset + fieldSize fbs)
        | .eq => .ok (.found (recordValue (data.drop offset) fbs vs key.length))
        | .gt => .ok .notFound
/-- `find_record`: the `FieldHeaderIterator::new` length check, then the
header walk. -/
def findRecord (data : List Nat) (fbs : Nat) (vs : ValueSize) (key : List Nat) :
    Except DbError RecordResult :=
  if data.length % fieldSize fbs ≠ 0 then .error (.fieldE .invalidLength)
  else findRecordF data fbs vs key (data.length + 1) 0
/-! ### The database (src/database.rs) -/
/-- `database::Database`: internal options, journal, metadata (struct and
mapped bytes), the mapped data file, and the collision files indexed by
prefix. -/
structure Database where
  options : InternalOptions
  journal : Journal
  metadata : Metadata
  rawMeta : List Nat
  data : List Nat
  collisions : List (Nat × Collision)
deriving DecidableEq, Repr
/-- `BTreeMap::get` on the collisions index. -/
def collFind : List (Nat × Collision) → Nat → Option Collision
  | [], _ => none
  | (p, c) :: rest, q => if p = q then some c else collFind rest q
/-- In-place update of a collisions entry (`get_mut`). -/
def collUpdate : List (Nat × Collision) → Nat → Collision → List (Nat × Collision)
  | [], _, _ => []
  | (p, c0) :: rest, q, c =>
    if p = q then (p, c) :: rest else (p, c0) :: collUpdate rest q c
/-- `Database::create` followed by `open_internal` on the fresh files: both
files zero-filled, empty journal, no pending flush file, metadata read back
from the zero bytes (so no collision files to open). -/
def Database.create (opts : Options) : Except DbError Database :=
  match InternalOptions.fromExternal opts with
  | .error e => .error e
  | .ok io =>
    match metaRead (zeros (metaBytesLen opts.key_index_bits)) opts.key_index_bits with
    | none => .error .expectPanic
    | some md =>
      .ok { options := io
            journal := { eras := [] }
            metadata := md
            rawMeta := zeros (metaBytesLen opts.key_index_bits)
            data := createDataFile io
            collisions := [] }
/-- `Database::create_transaction`. -/
def Database.createTransaction (db : Database) : Transaction :=
  Transaction.new db.options.external.key_len
/-- `Database::commit` (`Journal::push`). -/
def Database.commit (db : Database) (t : Transaction) : Database :=
  { db with journal := db.journal.push t }
/-- `Database::get`. -/
def Database.get (db : Database) (key : List Nat) : Except DbError (Option (List Nat)) :=
  if key.length ≠ db.options.external.key_len then
    .error (.invalidKeyLen db.options.external.key_len key.length)
  else
    match db.journal.get key with
    | .error e => .error e
    | .ok (some v) => .ok (some v)
    | .ok none =>
      if (db.metadata.collided_prefixes.has
          (readPfx key db.options.external.key_index_bits)).getD false then
        match collFind db.collisions
            (readPfx key db.options.external.key_index_bits) with
        | none => .error .expectPanic
        | some c => c.get key
      else if ¬ (db.metadata.prefixes.has
          (readPfx key db.options.external.key_index_bits)).getD false then
        .ok none
      else
        match findRecord
            (db.data.drop (readPfx key db.options.external.key_index_bits
              * db.options.record_offset))
            db.options.field_body_size db.options.value_size key with
        | .error e => .error e
        | .ok (.found v) => .ok (some v)
        | .ok .notFound => .ok none
        | .ok .outOfRange => .error .unimplementedGet
/-- `Key::new(op.key(), prefix_bits).prefix` under the database's options. -/
def dbPfx (db : Database) (key : List Nat) : Nat :=
  readPfx key db.options.external.key_index_bits
/-- The collided partition of an era inside `Database::flush_journal`,
applied to the collision files. -/
def applyCollided (db : Database) : List Op → Except DbError Database
  | [] => .ok db
  | op :: rest =>
    match collFind db.collisions (dbPfx db op.key) with
    | none => .error .expectPanic
    | some c =>
      match c.apply op with
      | .error e => .error e
      | .ok c' =>
        applyCollided
          { db with collisions := collUpdate db.collisions (dbPfx db op.key) c' }
          rest
/-- One era of `Database::flush_journal`: sort the era (`era.iter()`),
partition by collided prefix, apply the collided operations to collision
files, flush the rest to the data file. -/
def flushOneEra (db : Database) (raw : List Nat) : Except DbError Database :=
  match parseOps raw with
  | none => .error .expectPanic
  | some opsRaw =>
    match applyCollided db ((eraSorted opsRaw).filter (fun op =>
        (db.metadata.collided_prefixes.has
          (readPfx op.key db.options.external.key_index_bits)).getD false)) with
    | .error e => .error e
    | .ok db1 =>
      match Flush.new db1.options db1.data db1.metadata
          ((eraSorted opsRaw).filter (fun op =>
            !(db.metadata.collided_prefixes.has
              (readPfx op.key db.options.external.key_index_bits)).getD false)) with
      | .error e => .error e
      | .ok f =>
        match f.apply db1.data db1.rawMeta with
        | none => .error .expectPanic
        | some (data', rawMeta', md') =>
          .ok { db1 with data := data', rawMeta := rawMeta', metadata := md' }
/-- The loop of `Database::flush_journal` over the drained eras. -/
def flushEras (pending : List (List Nat)) (db : Database) : Except DbError Database :=
  match pending with
  | [] => .ok db
  | raw :: rest =>
    match flushOneEra db raw with
    | .error e => .error e
    | .ok db' => flushEras rest db'
/-- The `to_flush` count of `Database::flush_journal`:
`min(len - journal_eras, max)` with `max` defaulting to the length. -/
def drainCount (db : Database) (max : Option Nat) : Nat :=
  min (db.journal.len - db.options.external.journal_eras) (max.getD db.journal.len)
/-- `Database::flush_journal`: an undersized journal is left alone;
otherwise the `drainCount` oldest eras are drained and flushed in order. -/
def Database.flushJournal (db : Database) (max : Option Nat) : Except DbError Database :=
  if db.journal.len < db.options.external.journal_eras then .ok db
  else
    flushEras (db.journal.eras.take (drainCount db max))
      { db with journal := { eras := db.journal.eras.drop (drainCount db max) } }
/-! ### Concrete states for the pipeline claims -/
/-- Options of the insert-commit-flush-get scenario: 1-byte keys, 1-bit key
index, 1-byte constant values, the journal flushed on every call. -/
def c1opts : Options :=
  { journal_eras := 0
    extend_threshold_percent := 80
    key_index_bits := 1
    key_len := 1
    value_len := .constant 1
    max_prefix_collisions := 6 }
/-- `InternalOptions::from_external` of `c1opts`. -/
def c1io : InternalOptions :=
  { external := c1opts
    value_size := .constSize 1
    field_body_size := 2
    initial_db_size := 24
    record_offset := 3 }
/-- The metadata `Database::create c1opts` reads back from the zero file. -/
def c1md0 : Metadata :=
  { db_version := 0
    occupied_bytes := 0
    prefix_bits := 1
    prefixes := PfxTree.fromLeaves [0] 1
    collided_prefixes := PfxTree.fromLeaves [0] 1 }
/-- The database `Database::create c1opts` returns. -/
def c1db0 : Database :=
  { options := c1io
    journal := { eras := [] }
    metadata := c1md0
    rawMeta := zeros 12
    data := zeros 24
    collisions := [] }
/-- Metadata after the single insert of prefix `p` (3 record bytes). -/
def c1md1 (p : Nat) : Metadata := c1md0.insertRecord p 3
/-- The idempotent-operation region the writer emits for the single
insert: destination `p * 3`, 3 record bytes. -/
def c1idops (p b v0 : Nat) : List Nat :=
  leBytes 8 (p * 3) ++ [3, 0, 0, 0] ++ [1, b, v0]
/-- The flush data of the single-insert flush. -/
def c1flushData (p b v0 : Nat) : List Nat := c1idops p b v0 ++ metaImage (c1md1 p)
/-- The flush artifact of the single-insert flush. -/
def c1fl (p b v0 : Nat) : Flush :=
  { fileBytes := sha3_256 (c1flushData p b v0) ++ c1flushData p b v0
    prefix_bits := 1
    md := c1md1 p }
/-- The database after `flush_journal` on the single-insert journal. -/
def c1db2 (p b v0 : Nat) : Database :=
  { options := c1io
    journal := { eras := [] }
    metadata := c1md1 p
    rawMeta := metaImage (c1md1 p)
    data := setRange (zeros 24) (p * 3) [1, b, v0]
    collisions := [] }
/-- A one-era journal state over the `c1opts` database (for the journal
drain witness). -/
def c6db : Database := { c1db0 with journal := { eras := [[]] } }
/-- A collision file holding `[5] ↦ [7]` (reached from `Collision::create`
by one insert). -/
def c8c : Collision :=
  { pfx := 0
    contents := [1, 0, 0, 0, 5, 1, 0, 0, 0, 7]
    filePos := 10
    index := [([5], (0, 10))] }
/-- Metadata whose prefix tree declares prefix 1 occupied (`prefix_bits`
1). -/
def c10md : Metadata :=
  { db_version := 0
    occupied_bytes := 6
    prefix_bits := 1
    prefixes := (PfxTree.new 1).insert 1
    collided_prefixes := PfxTree.new 1 }
/-- A data file (options `c5io`: 1-byte keys, 1-bit index, empty constant
values) whose prefix-1 region is full of inserted records below `[255]`. -/
def c10data : List Nat :=
  [0, 0, 1, 9, 1, 9, 1, 9, 1, 9, 1, 9, 1, 9, 1, 9]
/-- A database state on which `get [255]` walks off the end of the file. -/
def c10db : Database :=
  { options := c5io
    journal := { eras := [] }
    metadata := c10md
    rawMeta := zeros 12
    data := c10data
    collisions := [] }

/-! ## Library lemmas about the byte-level helpers -/

theorem leBytes_length (k n : Nat) : (leBytes k n).length = k := by
  induction k generalizing n with
  | zero => rfl
  | succ k ih => simp [leBytes, ih]

theorem readLE_leBytes (k n : Nat) : readLE (leBytes k n) = n % 256 ^ k := by
  induction k generalizing n with
  | zero => simp [leBytes, readLE, Nat.mod_one]
  | succ k ih =>
    simp only [leBytes, readLE, ih, pow_succ]
    rw [mul_comm (256 ^ k) 256, Nat.mod_mul]

theorem readLE_leBytes_of_lt {k n : Nat} (h : n < 256 ^ k) :
    readLE (leBytes k n) = n := by
  rw [readLE_leBytes, Nat.mod_eq_of_lt h]

theorem setRange_length (dst src : List Nat) (off : Nat)
    (h : off + src.length ≤ dst.length) :
    (setRange dst off src).length = dst.length := by
  simp [setRange]
  omega

theorem setRange_getElem?_left (dst src : List Nat) (off i : Nat)
    (hoff : off + src.length ≤ dst.length) (hi : i < off) :
    (setRange dst off src)[i]? = dst[i]? := by
  have htk : (dst.take off).length = off := by simp; omega
  have htk2 : (src.take (dst.length - off)).length = src.length := by simp; omega
  rw [setRange, List.getElem?_append_left (by simp [htk, htk2]; omega)]
  rw [List.getElem?_append_left (by omega), List.getElem?_take_of_lt hi]

theorem setRange_getElem?_mid (dst src : List Nat) (off i : Nat)
    (hoff : off + src.length ≤ dst.length) (h1 : off ≤ i)
    (h2 : i < off + src.length) :
    (setRange dst off src)[i]? = src[i - off]? := by
  have htk : (dst.take off).length = off := by simp; omega
  have htk2 : (src.take (dst.length - off)).length = src.length := by simp; omega
  rw [setRange, List.getElem?_append_left (by simp [htk, htk2]; omega)]
  rw [List.getElem?_append_right (by omega), htk]
  rw [List.getElem?_take_of_lt (by omega)]

theorem setRange_getElem?_right (dst src : List Nat) (off i : Nat)
    (hoff : off + src.length ≤ dst.length) (h1 : off + src.length ≤ i) :
    (setRange dst off src)[i]? = dst[i]? := by
  have htk : (dst.take off).length = off := by simp; omega
  have htk2 : (src.take (dst.length - off)).length = src.length := by simp; omega
  rw [setRange, List.getElem?_append_right (by simp [htk, htk2]; omega)]
  rw [List.getElem?_drop]
  congr 1
  simp [htk, htk2]
  omega

theorem setRange_drop_eq (dst src : List Nat) (off : Nat)
    (h : off + src.length ≤ dst.length) :
    (setRange dst off src).drop off = src ++ dst.drop (off + src.length) := by
  have htk : (dst.take off).length = off := by simp; omega
  have htk2 : src.take (dst.length - off) = src := by
    apply List.take_of_length_le; omega
  rw [setRange, htk2, List.drop_append_eq_append_drop]
  simp [htk]

theorem zeros_getElem? (n i : Nat) (h : i < n) : (zeros n)[i]? = some 0 := by
  simp [zeros, List.getElem?_replicate, h]

theorem zeros_length (n : Nat) : (zeros n).length = n := by simp [zeros]

theorem zeros_drop (n k : Nat) : (zeros n).drop k = zeros (n - k) := by
  simp [zeros, List.drop_replicate]

theorem cmpBytes_self (l : List Nat) : cmpBytes l l = .eq := by
  induction l with
  | nil => rfl
  | cons a t ih =>
    have h : compare a a = Ordering.eq := Nat.compare_eq_eq.mpr rfl
    simp [cmpBytes, h, ih]

theorem cmpBytes_eq_iff (a b : List Nat) : cmpBytes a b = .eq ↔ a = b := by
  induction a generalizing b with
  | nil => cases b <;> simp [cmpBytes]
  | cons x xs ih =>
    cases b with
    | nil => simp [cmpBytes]
    | cons y ys =>
      simp only [cmpBytes]
      cases h : compare x y with
      | lt =>
        rw [Nat.compare_eq_lt] at h
        simp only [List.cons.injEq]
        constructor
        · intro hc; cases hc
        · rintro ⟨h1, h2⟩; omega
      | eq =>
        rw [Nat.compare_eq_eq] at h
        subst h
        simp [ih]
      | gt =>
        rw [Nat.compare_eq_gt] at h
        simp only [List.cons.injEq]
        constructor
        · intro hc; cases hc
        · rintro ⟨h1, h2⟩; omega

theorem fvChunks_zero (data : List Nat) (fbs ours : Nat) :
    fvChunks data fbs ours 0 = [] := rfl

/-- Reading a sub-body range that stays inside the first field is a plain
slice just past the header byte. -/

theorem fvRead_single_field (data : List Nat) (fbs off len : Nat)
    (hfbs : 0 < fbs) (hoff : off < fbs) (hlen : off + len ≤ fbs) :
    fvRead data fbs off len = (data.drop (off + 1)).take len := by
  rcases Nat.eq_zero_or_pos off with hz | hpos
  · subst hz
    rcases Nat.lt_or_ge len fbs with hlt | hge
    · have hdiv : len / fbs = 0 := Nat.div_eq_of_lt hlt
      rcases Nat.eq_zero_or_pos len with hl0 | hlp
      · subst hl0
        simp [fvRead, hdiv, fvChunks, headerSize]
      · simp only [fvRead, headerSize, Nat.mul_zero, Nat.zero_div, Nat.add_zero,
          Nat.zero_mod, hdiv, fvChunks]
        rw [if_neg (by simp)]
        rw [if_pos (by omega)]
        simp
    · have hlen' : len = fbs := by omega
      have hdiv : len / fbs = 1 := by rw [hlen']; exact Nat.div_self hfbs
      simp only [fvRead, headerSize, Nat.mul_zero, Nat.zero_div, Nat.add_zero,
        Nat.zero_mod, hdiv, fvChunks]
      rw [if_neg (by simp)]
      rw [if_neg (by simp [hlen'])]
      simp [hlen']
  · have hmod : off % fbs = off := Nat.mod_eq_of_lt hoff
    have hdiv0 : headerSize * off / fbs = 0 := by
      apply Nat.div_eq_of_lt
      simpa [headerSize] using hoff
    have hrem : min len (fbs - off % fbs) = len := by
      rw [hmod]; omega
    have hfields : (len - min len (fbs - off % fbs)) / fbs = 0 := by
      rw [hrem]; simp
    simp only [fvRead, headerSize, hdiv0, Nat.add_zero]
    rw [if_pos (by omega)]
    simp only [hrem, hfields, fvChunks]
    rw [if_neg (by simp)]
    simp [Nat.div_eq_of_lt hoff, fvChunks]

/-! ## Key-prefix lemmas (claim C7) -/

theorem beNat_foldl_acc (l : List Nat) (a : Nat) :
    l.foldl (fun a b => a * 256 + b) a = a * 256 ^ l.length + beNat l := by
  induction l generalizing a with
  | nil => simp [beNat]
  | cons b t ih =>
    simp only [List.foldl_cons, beNat, List.length_cons]
    rw [ih (a * 256 + b), ih (0 * 256 + b)]
    ring

theorem beNat_cons (b : Nat) (t : List Nat) :
    beNat (b :: t) = b * 256 ^ t.length + beNat t := by
  rw [beNat, List.foldl_cons, beNat_foldl_acc]
  simp [beNat]

theorem beNat_append_single (l : List Nat) (b : Nat) :
    beNat (l ++ [b]) = beNat l * 256 + b := by
  rw [beNat, List.foldl_append, beNat_foldl_acc]
  simp [beNat]

theorem beNat_lt (l : List Nat) (hb : ∀ b ∈ l, b < 256) :
    beNat l < 256 ^ l.length := by
  induction l with
  | nil => simp [beNat]
  | cons b t ih =>
    have hbb : b < 256 := hb b (by simp)
    have ht : beNat t < 256 ^ t.length := ih (fun x hx => hb x (by simp [hx]))
    rw [beNat_cons, List.length_cons]
    have hx : (b + 1) * 256 ^ t.length = b * 256 ^ t.length + 256 ^ t.length := by
      ring
    have hmul : (b + 1) * 256 ^ t.length ≤ 256 * 256 ^ t.length :=
      Nat.mul_le_mul_right _ (by omega)
    have hpow : 256 * 256 ^ t.length = 256 ^ (t.length + 1) := by ring
    omega

theorem readPfxLoop_eq (key : List Nat) (hb : ∀ b ∈ key, b < 256)
    (pos : Nat) (hpos : pos ≤ 4) (hlen : pos ≤ key.length) :
    (List.range pos).foldl (fun p i => (p <<< 8) % 2 ^ 32 ||| key.getD i 0) 0
      = beNat (key.take pos) := by
  induction pos with
  | zero => simp [beNat]
  | succ p ih =>
    rw [List.range_succ, List.foldl_append]
    rw [ih (by omega) (by omega)]
    have hplen : p < key.length := by omega
    have hgb : key.getD p 0 < 256 := by
      have : key.getD p 0 = key[p] := by
        rw [List.getD_eq_getElem?_getD, List.getElem?_eq_getElem hplen]
        rfl
      rw [this]
      exact hb _ (List.getElem_mem hplen)
    have hbe : beNat (key.take p) < 256 ^ p := by
      have := beNat_lt (key.take p) (fun x hx => hb x (List.mem_of_mem_take hx))
      rwa [List.length_take, Nat.min_eq_left (by omega)] at this
    have hshift : beNat (key.take p) <<< 8 % 2 ^ 32 = beNat (key.take p) * 256 := by
      rw [Nat.shiftLeft_eq]
      apply Nat.mod_eq_of_lt
      have h1 : (256 : Nat) ^ p ≤ 2 ^ 24 := by
        calc (256 : Nat) ^ p ≤ 256 ^ 3 := Nat.pow_le_pow_right (by omega) (by omega)
          _ = 2 ^ 24 := by norm_num
      calc beNat (key.take p) * 2 ^ 8 < 256 ^ p * 2 ^ 8 :=
            (Nat.mul_lt_mul_right (by norm_num)).mpr hbe
        _ ≤ 2 ^ 24 * 2 ^ 8 := Nat.mul_le_mul_right _ h1
        _ = 2 ^ 32 := by norm_num
    have htake : key.take (p + 1) = key.take p ++ [key[p]] := by
      rw [List.take_succ, List.getElem?_eq_getElem hplen]
      rfl
    simp only [List.foldl_cons, List.foldl_nil, hshift]
    have h8 : key.getD p 0 < 2 ^ 8 := by simpa using hgb
    have horaw := Nat.mul_add_lt_is_or h8 (beNat (key.take p))
    have hor : beNat (key.take p) * 256 ||| key.getD p 0
        = beNat (key.take p) * 256 + key.getD p 0 := by
      rw [show beNat (key.take p) * 256 = 2 ^ 8 * beNat (key.take p) by ring]
      exact horaw.symm
    rw [hor, htake, beNat_append_single]
    have hget : key.getD p 0 = key[p] := by
      rw [List.getD_eq_getElem?_getD, List.getElem?_eq_getElem hplen]
      rfl
    rw [hget]

theorem pfxSpec_add (key : List Nat) (a b : Nat) :
    pfxSpec key (a + b) = pfxSpec key a * 2 ^ b +
      ((List.range b).map (fun t => bitAt key (a + t) * 2 ^ (b - 1 - t))).sum := by
  rw [pfxSpec, List.range_add, List.map_append, List.sum_append, List.map_map]
  congr 1
  · rw [pfxSpec, ← List.sum_map_mul_right]
    apply congrArg
    apply List.map_congr_left
    intro i hi
    have hia : i < a := List.mem_range.mp hi
    have : a + b - 1 - i = (a - 1 - i) + b := by omega
    rw [this, pow_add]
    ring
  · apply congrArg
    apply List.map_congr_left
    intro t ht
    have htb : t < b := List.mem_range.mp ht
    simp only [Function.comp]
    have : a + b - 1 - (a + t) = b - 1 - t := by omega
    rw [this]

set_option maxRecDepth 100000 in
theorem byteSum_eq :
    ∀ x < 256, ((List.range 8).map
      (fun t => ((x >>> (7 - t)) &&& 1) * 2 ^ (7 - t))).sum = x := by decide

set_option maxRecDepth 100000 in
theorem topBitsSum_eq :
    ∀ bits < 8, ∀ x < 256, ((List.range bits).map
      (fun t => ((x >>> (7 - t)) &&& 1) * 2 ^ (bits - 1 - t))).sum
      = x >>> (8 - bits) := by decide

theorem bitAt_byte (key : List Nat) (j t : Nat) (ht : t < 8) :
    bitAt key (8 * j + t) = (key.getD j 0 >>> (7 - t)) &&& 1 := by
  have hdiv : (8 * j + t) / 8 = j := by omega
  have hmod : (8 * j + t) % 8 = t := by omega
  rw [bitAt, hdiv, hmod]

theorem pfxSpec_whole (key : List Nat) (hb : ∀ b ∈ key, b < 256)
    (pos : Nat) (hlen : pos ≤ key.length) :
    pfxSpec key (8 * pos) = beNat (key.take pos) := by
  induction pos with
  | zero => simp [pfxSpec, beNat]
  | succ p ih =>
    have hplen : p < key.length := by omega
    have hgb : key.getD p 0 < 256 := by
      have h : key.getD p 0 = key[p] := by
        rw [List.getD_eq_getElem?_getD, List.getElem?_eq_getElem hplen]
        rfl
      rw [h]
      exact hb _ (List.getElem_mem hplen)
    have hmul : 8 * (p + 1) = 8 * p + 8 := by ring
    rw [hmul, pfxSpec_add, ih (by omega)]
    have hmap : ((List.range 8).map
        (fun t => bitAt key (8 * p + t) * 2 ^ (8 - 1 - t))).sum
        = ((List.range 8).map
          (fun t => ((key.getD p 0 >>> (7 - t)) &&& 1) * 2 ^ (7 - t))).sum := by
      apply congrArg
      apply List.map_congr_left
      intro t ht
      have htb : t < 8 := List.mem_range.mp ht
      rw [bitAt_byte key p t htb]
    rw [hmap, byteSum_eq _ hgb]
    have htake : key.take (p + 1) = key.take p ++ [key[p]] := by
      rw [List.take_succ, List.getElem?_eq_getElem hplen]
      rfl
    rw [htake, beNat_append_single]
    have hget : key.getD p 0 = key[p] := by
      rw [List.getD_eq_getElem?_getD, List.getElem?_eq_getElem hplen]
      rfl
    rw [hget]
    norm_num

/-- C7: for every `prefix_bits` in `1..=32` and every key of byte length at
least `ceil(prefix_bits/8)`, `Key::read_prefix` equals the integer formed by
the first `prefix_bits` bits of the key read most-significant-bit first. -/
theorem readPfx_eq_pfxSpec (key : List Nat) (pbits : Nat)
    (h1 : 1 ≤ pbits) (h2 : pbits ≤ 32)
    (hlen : (pbits + 7) / 8 ≤ key.length) (hb : ∀ b ∈ key, b < 256) :
    readPfx key pbits = pfxSpec key pbits := by
  have hsplit : pbits = 8 * (pbits / 8) + pbits % 8 := by omega
  rcases Nat.eq_zero_or_pos (pbits % 8) with hz | hpos
  · have hpos4 : pbits / 8 ≤ 4 := by omega
    have hposlen : pbits / 8 ≤ key.length := by omega
    rw [readPfx]
    simp only [hz, gt_iff_lt, Nat.lt_irrefl, if_false]
    rw [readPfxLoop_eq key hb _ hpos4 hposlen]
    rw [← pfxSpec_whole key hb _ hposlen]
    congr 1
    omega
  · have hpos3 : pbits / 8 ≤ 3 := by omega
    have hposlen : pbits / 8 + 1 ≤ key.length := by omega
    have hplen : pbits / 8 < key.length := by omega
    have hgb : key.getD (pbits / 8) 0 < 256 := by
      have h : key.getD (pbits / 8) 0 = key[pbits / 8] := by
        rw [List.getD_eq_getElem?_getD, List.getElem?_eq_getElem hplen]
        rfl
      rw [h]
      exact hb _ (List.getElem_mem hplen)
    rw [readPfx]
    simp only [gt_iff_lt, hpos, if_true]
    rw [readPfxLoop_eq key hb _ (by omega) (by omega)]
    have hbe : beNat (key.take (pbits / 8)) < 256 ^ (pbits / 8) := by
      have := beNat_lt (key.take (pbits / 8))
        (fun x hx => hb x (List.mem_of_mem_take hx))
      rwa [List.length_take, Nat.min_eq_left (by omega)] at this
    have hshift : beNat (key.take (pbits / 8)) <<< (pbits % 8) % 2 ^ 32
        = beNat (key.take (pbits / 8)) * 2 ^ (pbits % 8) := by
      rw [Nat.shiftLeft_eq]
      apply Nat.mod_eq_of_lt
      calc beNat (key.take (pbits / 8)) * 2 ^ (pbits % 8)
          < 256 ^ (pbits / 8) * 2 ^ (pbits % 8) :=
            (Nat.mul_lt_mul_right (by positivity)).mpr hbe
        _ = 2 ^ (8 * (pbits / 8)) * 2 ^ (pbits % 8) := by
            rw [show (256 : Nat) = 2 ^ 8 by norm_num, ← pow_mul]
        _ = 2 ^ pbits := by rw [← pow_add, ← hsplit]
        _ ≤ 2 ^ 32 := Nat.pow_le_pow_right (by omega) h2
    rw [hshift]
    have hlow : key.getD (pbits / 8) 0 >>> (8 - pbits % 8) < 2 ^ (pbits % 8) := by
      rw [Nat.shiftRight_eq_div_pow]
      apply Nat.div_lt_of_lt_mul
      calc key.getD (pbits / 8) 0 < 256 := hgb
        _ = 2 ^ (8 - pbits % 8) * 2 ^ (pbits % 8) := by
            rw [← pow_add]
            norm_num
    have horaw := Nat.mul_add_lt_is_or hlow (beNat (key.take (pbits / 8)))
    have hor : beNat (key.take (pbits / 8)) * 2 ^ (pbits % 8) |||
        key.getD (pbits / 8) 0 >>> (8 - pbits % 8)
        = beNat (key.take (pbits / 8)) * 2 ^ (pbits % 8) +
          key.getD (pbits / 8) 0 >>> (8 - pbits % 8) := by
      rw [show beNat (key.take (pbits / 8)) * 2 ^ (pbits % 8)
        = 2 ^ (pbits % 8) * beNat (key.take (pbits / 8)) by ring]
      exact horaw.symm
    rw [hor]
    conv_rhs => rw [hsplit]
    rw [pfxSpec_add, pfxSpec_whole key hb _ (by omega)]
    congr 1
    have hmap : ((List.range (pbits % 8)).map
        (fun t => bitAt key (8 * (pbits / 8) + t) * 2 ^ (pbits % 8 - 1 - t))).sum
        = ((List.range (pbits % 8)).map
          (fun t => ((key.getD (pbits / 8) 0 >>> (7 - t)) &&& 1) *
            2 ^ (pbits % 8 - 1 - t))).sum := by
      apply congrArg
      apply List.map_congr_left
      intro t ht
      have htb : t < pbits % 8 := List.mem_range.mp ht
      rw [bitAt_byte key _ t (by omega)]
    rw [hmap, topBitsSum_eq _ (by omega) _ hgb]

theorem readPfx_eq_pfxSpec_witness :
    readPfx [255, 254, 220, 186] 26 = pfxSpec [255, 254, 220, 186] 26 :=
  readPfx_eq_pfxSpec [255, 254, 220, 186] 26 (by decide) (by decide)
    (by decide) (by decide)

/-! ## Data-file size (claim C5) -/

theorem C5_counterexample :
    InternalOptions.fromExternal c5opts = .ok c5io ∧
    (createDataFile c5io).length ≠ (2 ^ c5opts.key_index_bits + 1) * c5io.record_offset := by
  constructor
  · decide
  · decide

/-- C5 (amended): after `Database::create`, the data file occupies exactly
`2^(key_index_bits + 2) * field_size` bytes (the source computes
`2 << (key_index_bits + 1)` slots), as long as the size fits in `u64`. -/
theorem createDataFile_size (opts : Options) (io : InternalOptions)
    (h : InternalOptions.fromExternal opts = .ok io)
    (hfit : 2 ^ (opts.key_index_bits + 2) *
      fieldSize (opts.key_len + opts.value_len.size) < 2 ^ 64) :
    (createDataFile io).length = 2 ^ (opts.key_index_bits + 2) *
      fieldSize (opts.key_len + opts.value_len.size) := by
  rw [InternalOptions.fromExternal] at h
  split_ifs at h
  rw [Except.ok.injEq] at h
  subst h
  rw [createDataFile, zeros_length]
  have hshift : (2 <<< (opts.key_index_bits + 1)) = 2 ^ (opts.key_index_bits + 2) := by
    rw [Nat.shiftLeft_eq]
    rw [pow_succ, pow_succ]
    ring
  simp only [hshift]
  exact Nat.mod_eq_of_lt hfit

theorem createDataFile_size_witness :
    (createDataFile c5io).length = 2 ^ (c5opts.key_index_bits + 2) *
      fieldSize (c5opts.key_len + c5opts.value_len.size) :=
  createDataFile_size c5opts c5io (by decide) (by decide)

/-! ## Flush idempotence (claim C2) -/

theorem applyIdops_length (ops : List (Nat × List Nat)) (db e : List Nat)
    (h : applyIdops db ops = some e) : e.length = db.length := by
  induction ops generalizing db with
  | nil =>
    simp only [applyIdops, Option.some.injEq] at h
    rw [h]
  | cons x rest ih =>
    obtain ⟨off, bytes⟩ := x
    rw [applyIdops] at h
    split at h
    · have hrec := ih _ h
      rwa [setRange_length _ _ _ (by assumption)] at hrec
    · cases h

theorem foldl_lastWrite (ops : List (Nat × List Nat)) (i : Nat) (a : Option Nat) :
    ops.foldl
      (fun acc op =>
        if op.1 ≤ i ∧ i < op.1 + op.2.length then op.2[i - op.1]? else acc) a
    = match lastWrite ops i with
      | some v => some v
      | none => a := by
  induction ops generalizing a with
  | nil => simp [lastWrite]
  | cons x rest ih =>
    have hcons : lastWrite (x :: rest) i
        = match lastWrite rest i with
          | some v => some v
          | none =>
            if x.1 ≤ i ∧ i < x.1 + x.2.length then x.2[i - x.1]? else none := by
      rw [lastWrite, List.foldl_cons]
      exact ih _
    rw [List.foldl_cons, ih _, hcons]
    cases hlw : lastWrite rest i with
    | some v => simp
    | none =>
      simp only
      by_cases hc : x.1 ≤ i ∧ i < x.1 + x.2.length
      · rw [if_pos hc, if_pos hc]
        have hi : i - x.1 < x.2.length := by omega
        rw [List.getElem?_eq_getElem hi]
      · rw [if_neg hc, if_neg hc]

theorem applyIdops_getElem? (ops : List (Nat × List Nat)) (db e : List Nat)
    (h : applyIdops db ops = some e) (i : Nat) :
    e[i]? = match lastWrite ops i with
      | some v => some v
      | none => db[i]? := by
  induction ops generalizing db with
  | nil =>
    simp only [applyIdops, Option.some.injEq] at h
    subst h
    simp [lastWrite]
  | cons x rest ih =>
    obtain ⟨off, bytes⟩ := x
    rw [applyIdops] at h
    split at h
    · rename_i hb
      have hrec := ih _ h
      have hcons : lastWrite ((off, bytes) :: rest) i
          = match lastWrite rest i with
            | some v => some v
            | none =>
              if off ≤ i ∧ i < off + bytes.length then bytes[i - off]? else none := by
        rw [lastWrite, List.foldl_cons]
        exact foldl_lastWrite rest i _
      rw [hcons]
      cases hlw : lastWrite rest i with
      | some v => rw [hrec, hlw]
      | none =>
        rw [hrec, hlw]
        simp only
        by_cases hc : off ≤ i ∧ i < off + bytes.length
        · rw [if_pos hc]
          have hi : i - off < bytes.length := by omega
          rw [List.getElem?_eq_getElem hi]
          rw [setRange_getElem?_mid db bytes off i hb hc.1 hc.2]
          rw [List.getElem?_eq_getElem hi]
        · rw [if_neg hc]
          simp only
          rcases Nat.lt_or_ge i off with hlt | hge
          · exact setRange_getElem?_left db bytes off i hb hlt
          · exact setRange_getElem?_right db bytes off i hb (by omega)
    · cases h

theorem applyIdops_isSome_of_length (ops : List (Nat × List Nat))
    (db1 db2 : List Nat) (hlen : db1.length = db2.length)
    (h : (applyIdops db1 ops).isSome) : (applyIdops db2 ops).isSome := by
  induction ops generalizing db1 db2 with
  | nil => simp [applyIdops]
  | cons x rest ih =>
    obtain ⟨off, bytes⟩ := x
    rw [applyIdops] at h ⊢
    split at h
    · rename_i hb
      rw [if_pos (by omega)]
      exact ih (setRange db1 off bytes) (setRange db2 off bytes)
        (by rw [setRange_length _ _ _ hb, setRange_length _ _ _ (by omega)]; omega) h
    · simp at h

theorem applyIdops_idem (ops : List (Nat × List Nat)) (db e : List Nat)
    (h : applyIdops db ops = some e) : applyIdops e ops = some e := by
  have hlen := applyIdops_length ops db e h
  have hsome : (applyIdops e ops).isSome :=
    applyIdops_isSome_of_length ops db e hlen.symm (by rw [h]; rfl)
  obtain ⟨e2, he2⟩ := Option.isSome_iff_exists.mp hsome
  have he2e : e2 = e := by
    apply List.ext_getElem?
    intro i
    rw [applyIdops_getElem? ops e e2 he2 i]
    cases hlw : lastWrite ops i with
    | some v =>
      have := applyIdops_getElem? ops db e h i
      rw [hlw] at this
      exact this.symm
    | none => rfl
  rw [he2, he2e]

theorem flushApplyCore_idem (opsRegion meta : List Nat) (mdv : Metadata)
    (db rawMeta db' meta' : List Nat) (md' : Metadata)
    (h : flushApplyCore opsRegion meta mdv db rawMeta = some (db', meta', md')) :
    flushApplyCore opsRegion meta mdv db' meta' = some (db', meta', md') := by
  rw [flushApplyCore] at h ⊢
  cases hp : parseIdops opsRegion with
  | none => rw [hp] at h; cases h
  | some ops =>
    rw [hp] at h
    simp only at h ⊢
    cases ha : applyIdops db ops with
    | none => rw [ha] at h; cases h
    | some e =>
      rw [ha] at h
      simp only at h
      split at h
      · rename_i hml
        rw [Option.some.injEq, Prod.mk.injEq, Prod.mk.injEq] at h
        obtain ⟨h1, h2, h3⟩ := h
        subst h1
        subst h2
        subst h3
        rw [applyIdops_idem ops db _ ha]
        simp
      · cases h

/-- C2: applying the same flush artifact twice to the data-file bytes and
the metadata bytes leaves them identical to applying it once
(`Flush::flush` is idempotent). -/
theorem flush_apply_idempotent (f : Flush) (db rawMeta db' meta' : List Nat)
    (md' : Metadata) (h : f.apply db rawMeta = some (db', meta', md')) :
    f.apply db' meta' = some (db', meta', md') :=
  flushApplyCore_idem _ _ _ _ _ _ _ _ h

theorem flush_apply_idempotent_witness :
    c2flush.apply [7, 9] (zeros 12) = some ([7, 9], zeros 12, c2md) :=
  flush_apply_idempotent c2flush [9, 9] (zeros 12) [7, 9] (zeros 12) c2md
    (by decide)

/-! ## The minimum-slot guard is violated on overwrite during a backward
shift (claim C3) -/

/-- C3: on the failing input (records `[64]` and `[128]` at their minimum
slots, batch `[Delete [64], Insert [128] []]`), the operation writer emits
the overwritten record of key `[128]` (prefix 2, minimum slot offset 4) at
destination offset 2: the minimum-slot guard does not hold for overwrites
performed during a backward shift. -/
theorem flush_writer_min_slot_violation :
    c3run.isOk = true ∧
    c3ranges = [(2, [1, 128, 0, 0])] ∧
    minSlotOk c3ranges 2 1 = false ∧
    minOffsetForSpace [1, 128, 0, 0] 2 1 = 4 := by
  refine ⟨by decide, by decide, by decide, by decide⟩

/-! ## Flush file layout (claim C4) -/

theorem setAncestorsF_length (fuel : Nat) (tree : List Bool) (idx : Nat) :
    (setAncestorsF fuel tree idx).length = tree.length := by
  induction fuel generalizing tree idx with
  | zero => rfl
  | succ n ih =>
    rw [setAncestorsF]
    split
    · rw [ih]
      simp
    · rfl

theorem setAncestors_length (tree : List Bool) (idx : Nat) :
    (setAncestors tree idx).length = tree.length :=
  setAncestorsF_length _ _ _

theorem removeAncestorsF_length (fuel : Nat) (tree : List Bool) (idx : Nat) :
    (removeAncestorsF fuel tree idx).length = tree.length := by
  induction fuel generalizing tree idx with
  | zero => rfl
  | succ n ih =>
    rw [removeAncestorsF]
    repeat' split
    all_goals first
      | rfl
      | (rw [ih]; simp)

theorem removeAncestors_length (tree : List Bool) (idx : Nat) :
    (removeAncestors tree idx).length = tree.length :=
  removeAncestorsF_length _ _ _

theorem PfxTree.insert_length (t : PfxTree) (p : Nat) :
    (t.insert p).tree.length = t.tree.length := by
  rw [PfxTree.insert]
  simp [setAncestors_length]

theorem PfxTree.remove_length (t : PfxTree) (p : Nat) :
    (t.remove p).tree.length = t.tree.length := by
  rw [PfxTree.remove]
  simp [removeAncestors_length]

theorem Metadata.wf_insertRecord (m : Metadata) (pbits p len : Nat)
    (h : m.wf pbits) : (m.insertRecord p len).wf pbits := by
  obtain ⟨h1, h2, h3, h4, h5⟩ := h
  refine ⟨h1, h2, h3, ?_, h5⟩
  rw [Metadata.insertRecord]
  simp only
  rw [PfxTree.insert_length]
  exact h4

theorem Metadata.wf_removeRecord (m : Metadata) (pbits len : Nat)
    (h : m.wf pbits) : (m.removeRecord len).wf pbits := h

theorem Metadata.wf_updateRecordLen (m : Metadata) (pbits oldLen newLen : Nat)
    (h : m.wf pbits) : (m.updateRecordLen oldLen newLen).wf pbits := h

theorem lastStep_md (db : List Nat) (fbs pbits : Nat) (fuel : Nat)
    (s s' : WState) (h : lastStep db fbs pbits fuel s = .ok s') :
    s'.md = s.md := by
  induction fuel generalizing s with
  | zero => cases h
  | succ n ih =>
    rw [lastStep] at h
    split at h
    · split at h
      all_goals (rw [Except.ok.injEq] at h; subst h; rfl)
    · split at h
      · rw [Except.ok.injEq] at h
        subst h
        rfl
      · split at h
        · cases h
        · split at h
          · split at h
            · rw [ih _ h]
            · rw [ih _ h]
          · split at h
            · rw [ih _ h]
            · split at h
              · rw [ih _ h]
              · split at h
                · rw [ih _ h]
                · rw [ih _ h]

theorem wstepPre_md (s : WState) (pfx fbs : Nat) :
    (wstepPre s pfx fbs).md = s.md := by
  rw [wstepPre]
  split <;> rfl

theorem wstepBody_wf (db : List Nat) (fbs pbits : Nat) (constValue : Bool)
    (wrec : WState → Except DbError WState) (op : Op) (restOps : List Op)
    (pfx pb' : Nat) (t s' : WState)
    (hr : ∀ u, wrec u = .ok s' → u.md.wf pb' → s'.md.wf pb')
    (hwf : t.md.wf pb')
    (h : wstepBody db fbs pbits constValue wrec op restOps pfx t = .ok s') :
    s'.md.wf pb' := by
  rw [wstepBody] at h
  split at h
  · cases h
  · cases h
  · split at h
    · exact hr _ h (Metadata.wf_insertRecord _ _ _ _ hwf)
    · exact hr _ h (Metadata.wf_insertRecord _ _ _ _ hwf)
    · exact hr _ h (Metadata.wf_updateRecordLen _ _ _ _ hwf)
    · exact hr _ h hwf
    · exact hr _ h hwf
    · exact hr _ h hwf
    · exact hr _ h hwf
    · split at h
      · exact hr _ h hwf
      · cases h
    · exact hr _ h (Metadata.wf_removeRecord _ _ _ hwf)

theorem wrun_wf (db : List Nat) (fbs pbits : Nat) (constValue : Bool)
    (pb' : Nat) (fuel : Nat) (s s' : WState) (hwf : s.md.wf pb')
    (h : wrun db fbs pbits constValue fuel s = .ok s') : s'.md.wf pb' := by
  induction fuel generalizing s with
  | zero => cases h
  | succ n ih =>
    rw [wrun] at h
    split at h
    · rw [lastStep_md db fbs pbits (db.length + 2) _ s' h]
      exact hwf
    · refine wstepBody_wf db fbs pbits constValue _ _ _ _ pb' _ s'
        (fun u hru hu => ih u hu hru) ?_ h
      rw [wstepPre_md]
      exact hwf

theorem writerRun_wf (ops : List Op) (db : List Nat) (md : Metadata)
    (fbs pbits pb' : Nat) (constValue : Bool) (flushData : List Nat)
    (md' : Metadata) (hwf : md.wf pb')
    (h : writerRun ops db md fbs pbits constValue = .ok (flushData, md')) :
    md'.wf pb' ∧ flushData = flushData := by
  rw [writerRun] at h
  cases hs : wrun db fbs pbits constValue (2 * ops.length + db.length + 16)
      { ops := ops, spOffset := 0, md := md, buf := [], denoted := none,
        shift := 0 } with
  | error e => rw [hs] at h; cases h
  | ok s =>
    rw [hs] at h
    simp only [writerFinish] at h
    rw [Except.ok.injEq, Prod.mk.injEq] at h
    refine ⟨?_, rfl⟩
    rw [← h.2]
    exact wrun_wf db fbs pbits constValue pb' _ _ s hwf hs

theorem packBitsF_length (fuel : Nat) (l : List Bool) (h : l.length ≤ fuel) :
    (packBitsF fuel l).length = (l.length + 7) / 8 := by
  induction fuel generalizing l with
  | zero =>
    have hnil : l = [] := List.eq_nil_of_length_eq_zero (by omega)
    subst hnil
    rfl
  | succ n ih =>
    rw [packBitsF]
    split
    · rename_i he
      subst he
      rfl
    · rename_i he
      have hlen : l.length ≠ 0 := fun hh => he (List.eq_nil_of_length_eq_zero hh)
      rw [List.length_cons, ih (l.drop 8) (by simp; omega)]
      simp only [List.length_drop]
      omega

theorem packBits_length (l : List Bool) : (packBits l).length = (l.length + 7) / 8 :=
  packBitsF_length _ _ (by omega)

theorem PfxTree.leaves_length (t : PfxTree)
    (h : t.tree.length = 2 <<< t.prefix_bits) :
    t.leaves.length = PfxTree.leafDataLen t.prefix_bits := by
  rw [PfxTree.leaves, List.length_drop, PfxTree.bytes, packBits_length, h]
  rw [PfxTree.leafDataLen, leafIndex]
  have h2 : (2 : Nat) <<< t.prefix_bits = 2 * (1 <<< t.prefix_bits) := by
    rw [Nat.shiftLeft_eq, Nat.shiftLeft_eq]
    ring
  have h3 : ((1 <<< t.prefix_bits) + 7) >>> 3 = ((1 <<< t.prefix_bits) + 7) / 8 := by
    rw [Nat.shiftRight_eq_div_pow]
  have hXpow : (1 : Nat) <<< t.prefix_bits = 2 ^ t.prefix_bits := by
    rw [Nat.shiftLeft_eq]
    ring
  have hcases : (1 <<< t.prefix_bits) % 8 = 1 ∨ (1 <<< t.prefix_bits) % 8 = 2 ∨
      (1 <<< t.prefix_bits) % 8 = 4 ∨ (1 <<< t.prefix_bits) % 8 = 0 := by
    rcases Nat.lt_or_ge t.prefix_bits 3 with hlt | hge
    · interval_cases h : t.prefix_bits <;> simp [hXpow]
    · right; right; right
      have hdvd : (8 : Nat) ∣ 1 <<< t.prefix_bits := by
        rw [hXpow, show (8 : Nat) = 2 ^ 3 by norm_num]
        exact pow_dvd_pow 2 hge
      omega
  rw [h2, h3]
  omega

theorem metaImage_length (m : Metadata) (pbits : Nat) (h : m.wf pbits) :
    (metaImage m).length = metaBytesLen pbits := by
  obtain ⟨h1, h2, h3, h4, h5⟩ := h
  rw [metaImage]
  simp only [List.length_append, leBytes_length]
  rw [PfxTree.leaves_length m.prefixes (by rw [h2]; exact h4)]
  rw [PfxTree.leaves_length m.collided_prefixes (by rw [h3]; exact h5)]
  rw [metaBytesLen, collidedLeavesOffset, prefixLeavesOffset, h2, h3]

theorem lanesToBytes_length (s : List Nat) : (lanesToBytes s).length = 200 := by
  rw [lanesToBytes, List.length_flatten, List.map_map]
  have h : List.map ((fun l => List.length l) ∘ fun i => leBytes 8 (s.getD i 0))
      (List.range 25) = List.map (fun _ => 8) (List.range 25) := by
    apply List.map_congr_left
    intro i _
    exact leBytes_length 8 _
  rw [h, List.map_const', List.sum_replicate]
  rfl

theorem sha3_length (msg : List Nat) : (sha3_256 msg).length = 32 := by
  rw [sha3_256, List.length_take, lanesToBytes_length]
  omega

theorem sha3_append_drop (msg rest : List Nat) :
    (sha3_256 msg ++ rest).drop 32 = rest := by
  rw [← sha3_length msg, List.drop_left]

set_option maxRecDepth 100000 in
/-- C4 fails as stated: the 32-byte checksum of the flush file is the
SHA3-256 of the body *and* the metadata image together, not of the body
alone.  On the concrete single-insert scenario the two layouts differ. -/
theorem flush_checksum_counterexample :
    c4run = .ok c4flush ∧
    c4flush.fileBytes = sha3_256 (c4body ++ c4meta) ++ (c4body ++ c4meta) ∧
    sha3_256 c4body ++ c4body ++ c4meta ≠ c4flush.fileBytes := by
  refine ⟨by decide, by decide, by decide⟩

/-- C4 (amended): for every flush artifact written by `Flush::new`, the file
is `SHA3-256(body || metadata_image) || body || metadata_image`, where
`body` is the idempotent-write-range region and the metadata image *is*
included in the hashed bytes. -/
theorem flush_file_layout (io : InternalOptions) (db : List Nat)
    (md : Metadata) (ops : List Op) (f : Flush)
    (hwf : md.wf io.external.key_index_bits)
    (h : Flush.new io db md ops = .ok f) :
    f.fileBytes
      = sha3_256 ((f.fileBytes.drop 32).take
            (f.fileBytes.length - 32 - metaBytesLen io.external.key_index_bits)
          ++ metaImage f.md)
        ++ ((f.fileBytes.drop 32).take
            (f.fileBytes.length - 32 - metaBytesLen io.external.key_index_bits)
          ++ metaImage f.md) := by
  rw [Flush.new] at h
  split at h
  · cases h
  · rename_i flushData md' hrun
    rw [Except.ok.injEq] at h
    subst h
    obtain ⟨hwf', -⟩ := writerRun_wf ops db md io.field_body_size
      io.external.key_index_bits io.external.key_index_bits
      io.external.value_len.isConst flushData md' hwf hrun
    rw [writerRun] at hrun
    cases hs : wrun db io.field_body_size io.external.key_index_bits
        io.external.value_len.isConst (2 * ops.length + db.length + 16)
        { ops := ops, spOffset := 0, md := md, buf := [], denoted := none,
          shift := 0 } with
    | error e => rw [hs] at hrun; cases hrun
    | ok s =>
      rw [hs] at hrun
      simp only [writerFinish] at hrun
      rw [Except.ok.injEq, Prod.mk.injEq] at hrun
      obtain ⟨hfd, hmd⟩ := hrun
      simp only
      rw [sha3_append_drop]
      have hmlen : (metaImage md').length = metaBytesLen io.external.key_index_bits :=
        metaImage_length md' io.external.key_index_bits hwf'
      have hlen : (sha3_256 flushData ++ flushData).length
          = 32 + flushData.length := by
        rw [List.length_append, sha3_length]
      rw [hlen, ← hfd]
      have htake : (s.buf ++ metaImage s.md).take
          (32 + (s.buf ++ metaImage s.md).length - 32 - metaBytesLen io.external.key_index_bits)
          = s.buf := by
        rw [List.length_append]
        rw [← hmd] at hmlen
        rw [hmlen]
        rw [show 32 + (s.buf.length + metaBytesLen io.external.key_index_bits) - 32
          - metaBytesLen io.external.key_index_bits = s.buf.length by omega]
        rw [List.take_left]
      rw [htake, hmd]

set_option maxRecDepth 100000 in
theorem flush_file_layout_witness :
    c4flush.fileBytes
      = sha3_256 ((c4flush.fileBytes.drop 32).take
            (c4flush.fileBytes.length - 32 - metaBytesLen c5io.external.key_index_bits)
          ++ metaImage c4flush.md)
        ++ ((c4flush.fileBytes.drop 32).take
            (c4flush.fileBytes.length - 32 - metaBytesLen c5io.external.key_index_bits)
          ++ metaImage c4flush.md) :=
  flush_file_layout c5io (createDataFile c5io) c4md0 [Op.insert [0] []] c4flush
    (by refine ⟨rfl, rfl, rfl, rfl, rfl⟩) (by decide)

/-! ## Out-of-range lookups panic (claim C10) -/

/-- C10: `Database::get` is not total on length-valid keys: on the state
`c10db` (prefix 1 marked occupied and its region packed with inserted
records whose keys order below the lookup key) the header walk of
`find_record` runs off the end of the mapped file, `find_record` returns
`OutOfRange`, and `get` hits the `unimplemented!()` arm. -/
theorem get_out_of_range_unimplemented :
    [(255 : Nat)].length = c10db.options.external.key_len ∧
    c10db.get [255] = .error .unimplementedGet := by
  refine ⟨rfl, by decide⟩

/-! ## Journal draining (claim C6) -/

theorem applyCollided_journal (ops : List Op) (db db' : Database)
    (h : applyCollided db ops = .ok db') :
    db'.journal = db.journal ∧ db'.options = db.options := by
  induction ops generalizing db with
  | nil =>
    rw [applyCollided] at h
    rw [Except.ok.injEq] at h
    subst h
    exact ⟨rfl, rfl⟩
  | cons op rest ih =>
    rw [applyCollided] at h
    split at h
    · cases h
    · split at h
      · cases h
      · have hr := ih _ h
        exact hr

theorem flushOneEra_journal (db db' : Database) (raw : List Nat)
    (h : flushOneEra db raw = .ok db') :
    db'.journal = db.journal ∧ db'.options = db.options := by
  rw [flushOneEra] at h
  split at h
  · cases h
  · split at h
    · cases h
    · rename_i db1 hdb1
      split at h
      · cases h
      · split at h
        · cases h
        · rw [Except.ok.injEq] at h
          subst h
          exact ⟨(applyCollided_journal _ _ _ hdb1).1,
            (applyCollided_journal _ _ _ hdb1).2⟩

theorem flushEras_journal (pending : List (List Nat)) (db db' : Database)
    (h : flushEras pending db = .ok db') :
    db'.journal = db.journal ∧ db'.options = db.options := by
  induction pending generalizing db with
  | nil =>
    rw [flushEras] at h
    rw [Except.ok.injEq] at h
    subst h
    exact ⟨rfl, rfl⟩
  | cons raw rest ih =>
    rw [flushEras] at h
    split at h
    · cases h
    · rename_i db1 hdb1
      obtain ⟨h1, h2⟩ := ih _ h
      obtain ⟨h3, h4⟩ := flushOneEra_journal _ _ _ hdb1
      exact ⟨h1.trans h3, h2.trans h4⟩

/-- C6: `flush_journal` succeeds draining no era when the journal is shorter
than `journal_eras`; whenever it succeeds it has drained exactly the
`min(len - journal_eras, max)` oldest eras (`max` defaulting to the
length; the count is 0 in the undersized case by saturating subtraction). -/
theorem flush_journal_drains (db : Database) (max : Option Nat) :
    (db.journal.len < db.options.external.journal_eras →
      db.flushJournal max = .ok db) ∧
    ∀ db', db.flushJournal max = .ok db' →
      db'.journal.eras = db.journal.eras.drop (drainCount db max) := by
  constructor
  · intro hlt
    rw [Database.flushJournal, if_pos hlt]
  · intro db' h
    rw [Database.flushJournal] at h
    split at h
    · rw [Except.ok.injEq] at h
      subst h
      rename_i hlt
      have hz : db.journal.len - db.options.external.journal_eras = 0 := by omega
      rw [drainCount, hz]
      simp
    · have hj := (flushEras_journal _ _ _ h).1
      rw [hj]

theorem flush_journal_drains_witness :
    c6db.flushJournal none = .ok c1db0 ∧
    c1db0.journal.eras = c6db.journal.eras.drop (drainCount c6db none) :=
  ⟨by decide, (flush_journal_drains c6db none).2 c1db0 (by decide)⟩

/-! ## Collision-file append behaviour (claim C8) -/

set_option maxRecDepth 10000 in
/-- C8 fails as stated: on `c8c` (reached from `Collision::create` by one
insert of `[5] ↦ [7]`) a second insert of the same pair appends nothing and
a delete of an absent key appends no tombstone — both calls leave the log
file bytes and the index untouched. -/
theorem collision_append_counterexample :
    (Collision.create 0).insert [5] [7] = .ok c8c ∧
    c8c.insert [5] [7] = .ok c8c ∧
    c8c.delete [9] = .ok c8c := by
  refine ⟨by decide, by decide, by decide⟩

theorem rebuildIndex_file (c0 c2 : Collision) (h : c0.rebuildIndex = .ok c2) :
    c2.contents = c0.contents ∧ c2.filePos = c0.filePos := by
  rw [Collision.rebuildIndex] at h
  split at h
  · cases h
  · rw [Except.ok.injEq] at h
    subst h
    exact ⟨rfl, rfl⟩

/-- C8 (amended): `Collision::insert` is a no-op when the key already maps
to the same value, and `Collision::delete` is a no-op when the key is not in
the index; in all other successful cases the call appends the log entry
(resp. the tombstone entry) at the write cursor and rebuilds the index. -/
theorem collision_ops_amended (c : Collision) (key value : List Nat) :
    (c.get key = .ok (some value) → c.insert key value = .ok c) ∧
    (assocFind c.index key = none → c.delete key = .ok c) ∧
    (∀ c', c.get key ≠ .ok (some value) → c.insert key value = .ok c' →
      c'.contents = writeAt c.contents c.filePos (logInsertBytes key value)) ∧
    (∀ c', assocFind c.index key ≠ none → c.delete key = .ok c' →
      c'.contents = writeAt c.contents c.filePos (logDeleteBytes key)) := by
  refine ⟨?_, ?_, ?_, ?_⟩
  · intro hget
    rw [Collision.insert, hget]
    simp only
    rw [if_pos trivial]
  · intro hfind
    rw [Collision.delete, hfind]
  · intro c' hne h
    rw [Collision.insert] at h
    cases hget : c.get key with
    | error e => rw [hget] at h; cases h
    | ok cur =>
      rw [hget] at h
      simp only at h
      rw [if_neg (fun hcv => hne (by rw [hget, hcv]))] at h
      split at h
      · cases h
      · rename_i c2 hc2
        split at h
        · cases h
        · split at h
          · rw [Except.ok.injEq] at h
            subst h
            exact (rebuildIndex_file _ _ hc2).1
          · cases h
  · intro c' hne h
    rw [Collision.delete] at h
    cases hfind : assocFind c.index key with
    | none => exact absurd hfind hne
    | some e =>
      rw [hfind] at h
      simp only at h
      exact (rebuildIndex_file _ _ h).1

theorem collision_ops_amended_witness :
    c8c.insert [5] [7] = .ok c8c ∧
    c8c.contents = writeAt (Collision.create 0).contents
      (Collision.create 0).filePos (logInsertBytes [5] [7]) :=
  ⟨(collision_ops_amended c8c [5] [7]).1 (by decide),
   (collision_ops_amended (Collision.create 0) [5] [7]).2.2.1 c8c (by decide)
     (by decide)⟩

/-! ## InvalidKeyLen (claim C9) -/

theorem journalGetRev_no_invalid (key : List Nat) (eras : List (List Nat))
    (ex got : Nat) :
    journalGetRev key eras ≠ .error (.invalidKeyLen ex got) := by
  induction eras with
  | nil =>
    rw [journalGetRev]
    intro h
    cases h
  | cons raw rest ih =>
    rw [journalGetRev]
    split
    · intro h
      cases h
    · split
      · intro h
        cases h
      · intro h
        cases h
      · exact ih

theorem collisionGet_no_invalid (c : Collision) (key : List Nat) (ex got : Nat) :
    c.get key ≠ .error (.invalidKeyLen ex got) := by
  rw [Collision.get]
  repeat' split
  all_goals intro h
  all_goals cases h

theorem findRecordF_no_invalid (data : List Nat) (fbs : Nat) (vs : ValueSize)
    (key : List Nat) (fuel offset ex got : Nat) :
    findRecordF data fbs vs key fuel offset ≠ .error (.invalidKeyLen ex got) := by
  induction fuel generalizing offset with
  | zero =>
    rw [findRecordF]
    intro h
    cases h
  | succ n ih =>
    rw [findRecordF]
    split
    · intro h
      cases h
    · split
      · intro h
        cases h
      · intro h
        cases h
      · exact ih _
      · split
        · exact ih _
        · intro h
          cases h
        · intro h
          cases h

/-- C9: `Transaction::insert`, `Transaction::delete` and `Database::get`
return `InvalidKeyLen(key_len, key.len())` exactly when the supplied key's
length differs from the configured `key_len`; a failed transaction call
leaves the operation buffer untouched (`Database::get` takes the state by
shared reference, so it cannot change it). -/
theorem invalid_key_len_spec (t : Transaction) (db : Database)
    (key value : List Nat) :
    ((t.insert key value).2 = some (.invalidKeyLen t.key_len key.length) ↔
      key.length ≠ t.key_len) ∧
    ((t.delete key).2 = some (.invalidKeyLen t.key_len key.length) ↔
      key.length ≠ t.key_len) ∧
    (∀ e, (t.insert key value).2 = some e →
      e = .invalidKeyLen t.key_len key.length ∧ (t.insert key value).1 = t) ∧
    (∀ e, (t.delete key).2 = some e →
      e = .invalidKeyLen t.key_len key.length ∧ (t.delete key).1 = t) ∧
    (db.get key = .error (.invalidKeyLen db.options.external.key_len key.length)
      ↔ key.length ≠ db.options.external.key_len) := by
  refine ⟨?_, ?_, ?_, ?_, ?_⟩
  · rw [Transaction.insert]
    split
    · rename_i hne
      simp [hne]
    · rename_i hne
      simp [hne]
  · rw [Transaction.delete]
    split
    · rename_i hne
      simp [hne]
    · rename_i hne
      simp [hne]
  · intro e he
    rw [Transaction.insert] at he
    split at he
    · rename_i hne
      simp only at he
      rw [Option.some.injEq] at he
      subst he
      refine ⟨rfl, ?_⟩
      rw [Transaction.insert, if_pos hne]
    · simp at he
  · intro e he
    rw [Transaction.delete] at he
    split at he
    · rename_i hne
      simp only at he
      rw [Option.some.injEq] at he
      subst he
      refine ⟨rfl, ?_⟩
      rw [Transaction.delete, if_pos hne]
    · simp at he
  · constructor
    · intro h
      by_contra hne
      rw [Database.get, if_neg (fun hk => hk hne)] at h
      cases hj : db.journal.get key with
      | error e =>
        rw [hj] at h
        rw [Except.error.injEq] at h
        rw [Journal.get] at hj
        rw [h] at hj
        exact journalGetRev_no_invalid key _ _ _ hj
      | ok r =>
        rw [hj] at h
        cases r with
        | some v => simp at h
        | none =>
          simp only at h
          split at h
          · split at h
            · cases h
            · rename_i c hc
              exact collisionGet_no_invalid c key _ _ h
          · split at h
            · cases h
            · split at h
              · rename_i e he
                rw [Except.error.injEq] at h
                rw [h] at he
                rw [findRecord] at he
                split at he
                · cases he
                · exact findRecordF_no_invalid _ _ _ _ _ _ _ _ he
              · cases h
              · cases h
              · cases h
    · intro hne
      rw [Database.get, if_pos hne]

theorem invalid_key_len_spec_witness :
    DbError.invalidKeyLen 1 2
        = .invalidKeyLen (Transaction.new 1).key_len [1, 2].length ∧
      (Transaction.insert (Transaction.new 1) [1, 2] [3]).1 = Transaction.new 1 :=
  (invalid_key_len_spec (Transaction.new 1) c10db [1, 2] [3]).2.2.1
    (DbError.invalidKeyLen 1 2) (by decide)

/-! ## Insert, commit, flush, get (claim C1) -/

theorem readPfx_one_bit (b : Nat) : readPfx [b] 1 = b >>> 7 := by
  rw [readPfx]
  simp

theorem readPfx_one_bit_lt (b : Nat) (h : b < 128) : readPfx [b] 1 = 0 := by
  rw [readPfx_one_bit, Nat.shiftRight_eq_div_pow]
  exact Nat.div_eq_of_lt (by omega)

theorem readPfx_one_bit_ge (b : Nat) (h1 : 128 ≤ b) (h2 : b < 256) :
    readPfx [b] 1 = 1 := by
  rw [readPfx_one_bit, Nat.shiftRight_eq_div_pow]
  rw [show (2 : Nat) ^ 7 = 128 from rfl]
  omega

theorem sha3_append_drop_add (msg rest : List Nat) (n : Nat) :
    (sha3_256 msg ++ rest).drop (32 + n) = rest.drop n := by
  rw [← List.drop_drop, sha3_append_drop]

theorem flush_apply_of_layout (body meta db rawMeta : List Nat) (mdv : Metadata)
    (pb : Nat) (hmeta : meta.length = metaBytesLen pb) :
    Flush.apply
        { fileBytes := sha3_256 (body ++ meta) ++ (body ++ meta),
          prefix_bits := pb, md := mdv } db rawMeta
      = flushApplyCore body meta mdv db rawMeta := by
  rw [Flush.apply]
  simp only
  have hlen : (sha3_256 (body ++ meta) ++ (body ++ meta)).length
      = 32 + (body.length + meta.length) := by
    rw [List.length_append, sha3_length, List.length_append]
  rw [hlen, ← hmeta, sha3_append_drop]
  rw [show 32 + (body.length + meta.length) - meta.length - 32
    = body.length from by omega]
  rw [show 32 + (body.length + meta.length) - meta.length
    = 32 + body.length from by omega]
  rw [sha3_append_drop_add, List.take_left, List.drop_left]

theorem wrun_cons (db : List Nat) (fbs pbits : Nat) (cv : Bool) (fuel : Nat)
    (s : WState) (op : Op) (restOps : List Op) (hops : s.ops = op :: restOps) :
    wrun db fbs pbits cv (fuel + 1) s
      = wstepBody db fbs pbits cv (wrun db fbs pbits cv fuel) op restOps
          (readPfx op.key pbits) (wstepPre s (readPfx op.key pbits) fbs) := by
  rw [wrun, hops]

theorem c1_writer_zero (b v0 : Nat) (hp : readPfx [b] 1 = 0) :
    writerRun [Op.insert [b] [v0]] (zeros 24) c1md0 2 1 true
      = .ok (c1flushData 0 b v0, c1md1 0) := by
  rw [writerRun]
  rw [show 2 * [Op.insert [b] [v0]].length + (zeros 24).length + 16
    = 41 + 1 from rfl]
  rw [wrun_cons _ _ _ _ _ _ _ _ rfl]
  rw [Op.key]
  rw [hp]
  with_unfolding_all rfl

theorem c1_writer_one (b v0 : Nat) (hp : readPfx [b] 1 = 1) :
    writerRun [Op.insert [b] [v0]] (zeros 24) c1md0 2 1 true
      = .ok (c1flushData 1 b v0, c1md1 1) := by
  rw [writerRun]
  rw [show 2 * [Op.insert [b] [v0]].length + (zeros 24).length + 16
    = 41 + 1 from rfl]
  rw [wrun_cons _ _ _ _ _ _ _ _ rfl]
  rw [Op.key]
  rw [hp]
  with_unfolding_all rfl

theorem c1_flush (p b v0 : Nat)
    (hw : writerRun [Op.insert [b] [v0]] (zeros 24) c1md0 2 1 true
      = .ok (c1flushData p b v0, c1md1 p)) :
    Flush.new c1io (zeros 24) c1md0 [Op.insert [b] [v0]] = .ok (c1fl p b v0) := by
  rw [Flush.new]
  rw [show c1io.field_body_size = 2 from rfl]
  rw [show c1io.external.key_index_bits = 1 from rfl]
  rw [show c1io.external.value_len.isConst = true from rfl]
  rw [hw]
  with_unfolding_all rfl

set_option maxHeartbeats 4000000 in
theorem c1_apply (p b v0 : Nat) (hplt : p < 2) :
    Flush.apply (c1fl p b v0) (zeros 24) (zeros 12)
      = some (setRange (zeros 24) (p * 3) [1, b, v0],
          metaImage (c1md1 p), c1md1 p) := by
  interval_cases p
  · rw [show c1fl 0 b v0
      = { fileBytes := sha3_256 (c1idops 0 b v0 ++ metaImage (c1md1 0))
            ++ (c1idops 0 b v0 ++ metaImage (c1md1 0)),
          prefix_bits := 1, md := c1md1 0 } from rfl]
    rw [flush_apply_of_layout (c1idops 0 b v0) (metaImage (c1md1 0)) (zeros 24)
      (zeros 12) (c1md1 0) 1 (by decide)]
    with_unfolding_all rfl
  · rw [show c1fl 1 b v0
      = { fileBytes := sha3_256 (c1idops 1 b v0 ++ metaImage (c1md1 1))
            ++ (c1idops 1 b v0 ++ metaImage (c1md1 1)),
          prefix_bits := 1, md := c1md1 1 } from rfl]
    rw [flush_apply_of_layout (c1idops 1 b v0) (metaImage (c1md1 1)) (zeros 24)
      (zeros 12) (c1md1 1) 1 (by decide)]
    with_unfolding_all rfl

theorem flushOneEra_eval (db : Database) (raw : List Nat) (ops : List Op)
    (f : Flush) (res : List Nat × List Nat × Metadata)
    (hparse : parseOps raw = some ops)
    (hcoll : (eraSorted ops).filter (fun op =>
      (db.metadata.collided_prefixes.has
        (readPfx op.key db.options.external.key_index_bits)).getD false) = [])
    (hfl : Flush.new db.options db.data db.metadata
      ((eraSorted ops).filter (fun op =>
        !(db.metadata.collided_prefixes.has
          (readPfx op.key db.options.external.key_index_bits)).getD false))
      = .ok f)
    (happ : f.apply db.data db.rawMeta = some res) :
    flushOneEra db raw
      = .ok { db with data := res.1, rawMeta := res.2.1, metadata := res.2.2 } := by
  rw [flushOneEra, hparse]
  simp only
  rw [hcoll]
  rw [show applyCollided db [] = .ok db from rfl]
  simp only
  rw [hfl]
  simp only
  rw [happ]

theorem flushEras_cons (raw : List Nat) (rest : List (List Nat)) (db : Database) :
    flushEras (raw :: rest) db
      = match flushOneEra db raw with
        | .error e => .error e
        | .ok db' => flushEras rest db' := rfl

set_option maxHeartbeats 2000000 in
theorem c1_flush_journal (p b v0 : Nat) (hp : readPfx [b] 1 = p) (hplt : p < 2) :
    (c1db0.commit (c1db0.createTransaction.insert [b] [v0]).1).flushJournal none
      = .ok (c1db2 p b v0) := by
  have hstep :
      (c1db0.commit (c1db0.createTransaction.insert [b] [v0]).1).flushJournal none
        = flushEras [[0, 1, 0, 0, 0, 1, 0, 0, 0, b, v0]] c1db0 := by
    rw [Database.flushJournal]
    rw [if_neg (of_decide_eq_false (by with_unfolding_all rfl))]
    congr 1
    all_goals with_unfolding_all rfl
  rw [hstep, flushEras_cons]
  interval_cases p
  · have hone : flushOneEra c1db0 [0, 1, 0, 0, 0, 1, 0, 0, 0, b, v0]
        = .ok { c1db0 with data := setRange (zeros 24) (0 * 3) [1, b, v0],
                           rawMeta := metaImage (c1md1 0), metadata := c1md1 0 } := by
      refine flushOneEra_eval c1db0 _ [Op.insert [b] [v0]] (c1fl 0 b v0)
        (setRange (zeros 24) (0 * 3) [1, b, v0], metaImage (c1md1 0), c1md1 0)
        ?_ ?_ ?_ ?_
      · with_unfolding_all rfl
      · rw [show eraSorted [Op.insert [b] [v0]] = [Op.insert [b] [v0]] from rfl,
           List.filter_cons]
        simp only [Op.key]
        rw [show c1db0.options.external.key_index_bits = 1 from rfl, hp]
        rw [if_neg (by decide)]
        exact List.filter_nil _
      · rw [show eraSorted [Op.insert [b] [v0]] = [Op.insert [b] [v0]] from rfl,
           List.filter_cons]
        simp only [Op.key]
        rw [show c1db0.options.external.key_index_bits = 1 from rfl, hp]
        rw [if_pos (by decide), List.filter_nil]
        exact c1_flush 0 b v0 (c1_writer_zero b v0 hp)
      · exact c1_apply 0 b v0 (by omega)
    rw [hone]
    with_unfolding_all rfl
  · have hone : flushOneEra c1db0 [0, 1, 0, 0, 0, 1, 0, 0, 0, b, v0]
        = .ok { c1db0 with data := setRange (zeros 24) (1 * 3) [1, b, v0],
                           rawMeta := metaImage (c1md1 1), metadata := c1md1 1 } := by
      refine flushOneEra_eval c1db0 _ [Op.insert [b] [v0]] (c1fl 1 b v0)
        (setRange (zeros 24) (1 * 3) [1, b, v0], metaImage (c1md1 1), c1md1 1)
        ?_ ?_ ?_ ?_
      · with_unfolding_all rfl
      · rw [show eraSorted [Op.insert [b] [v0]] = [Op.insert [b] [v0]] from rfl,
           List.filter_cons]
        simp only [Op.key]
        rw [show c1db0.options.external.key_index_bits = 1 from rfl, hp]
        rw [if_neg (by decide)]
        exact List.filter_nil _
      · rw [show eraSorted [Op.insert [b] [v0]] = [Op.insert [b] [v0]] from rfl,
           List.filter_cons]
        simp only [Op.key]
        rw [show c1db0.options.external.key_index_bits = 1 from rfl, hp]
        rw [if_pos (by decide), List.filter_nil]
        exact c1_flush 1 b v0 (c1_writer_one b v0 hp)
      · exact c1_apply 1 b v0 (by omega)
    rw [hone]
    with_unfolding_all rfl

set_option maxHeartbeats 1000000 in
theorem c1_find_zero (b v0 : Nat) :
    findRecord ([1, b, v0] ++ zeros 21) 2 (.constSize 1) [b] = .ok (.found [v0]) := by
  rw [findRecord]
  rw [if_neg (of_decide_eq_false (by with_unfolding_all rfl))]
  rw [show ([1, b, v0] ++ zeros 21).length + 1 = 24 + 1 from rfl]
  rw [findRecordF]
  rw [if_neg (of_decide_eq_false (by with_unfolding_all rfl))]
  rw [show headerOfByte (([1, b, v0] ++ zeros 21).getD 0 0) = .ok .inserted from rfl]
  rw [show extractKey (([1, b, v0] ++ zeros 21).drop 0) 2 [b].length = [b]
    from by with_unfolding_all rfl]
  rw [cmpBytes_self]
  with_unfolding_all rfl

set_option maxHeartbeats 1000000 in
theorem c1_find_one (b v0 : Nat) :
    findRecord ([1, b, v0] ++ zeros 18) 2 (.constSize 1) [b] = .ok (.found [v0]) := by
  rw [findRecord]
  rw [if_neg (of_decide_eq_false (by with_unfolding_all rfl))]
  rw [show ([1, b, v0] ++ zeros 18).length + 1 = 21 + 1 from rfl]
  rw [findRecordF]
  rw [if_neg (of_decide_eq_false (by with_unfolding_all rfl))]
  rw [show headerOfByte (([1, b, v0] ++ zeros 18).getD 0 0) = .ok .inserted from rfl]
  rw [show extractKey (([1, b, v0] ++ zeros 18).drop 0) 2 [b].length = [b]
    from by with_unfolding_all rfl]
  rw [cmpBytes_self]
  with_unfolding_all rfl

set_option maxHeartbeats 2000000 in
theorem c1_get (p b v0 : Nat) (hp : readPfx [b] 1 = p) (hplt : p < 2) :
    (c1db2 p b v0).get [b] = .ok (some [v0]) := by
  interval_cases p
  · rw [Database.get]
    rw [if_neg (of_decide_eq_false (by with_unfolding_all rfl))]
    rw [show (c1db2 0 b v0).journal.get [b] = .ok none from by with_unfolding_all rfl]
    rw [show (c1db2 0 b v0).options.external.key_index_bits = 1 from rfl, hp]
    rw [if_neg (of_decide_eq_false (by with_unfolding_all rfl))]
    rw [if_neg (of_decide_eq_false (by with_unfolding_all rfl))]
    rw [show (c1db2 0 b v0).data.drop (0 * (c1db2 0 b v0).options.record_offset)
      = [1, b, v0] ++ zeros 21 from by with_unfolding_all rfl]
    rw [show (c1db2 0 b v0).options.field_body_size = 2 from rfl]
    rw [show (c1db2 0 b v0).options.value_size = .constSize 1 from rfl]
    rw [c1_find_zero b v0]
  · rw [Database.get]
    rw [if_neg (of_decide_eq_false (by with_unfolding_all rfl))]
    rw [show (c1db2 1 b v0).journal.get [b] = .ok none from by with_unfolding_all rfl]
    rw [show (c1db2 1 b v0).options.external.key_index_bits = 1 from rfl, hp]
    rw [if_neg (of_decide_eq_false (by with_unfolding_all rfl))]
    rw [if_neg (of_decide_eq_false (by with_unfolding_all rfl))]
    rw [show (c1db2 1 b v0).data.drop (1 * (c1db2 1 b v0).options.record_offset)
      = [1, b, v0] ++ zeros 18 from by with_unfolding_all rfl]
    rw [show (c1db2 1 b v0).options.field_body_size = 2 from rfl]
    rw [show (c1db2 1 b v0).options.value_size = .constSize 1 from rfl]
    rw [c1_find_one b v0]

/-- C1: with the `c1opts` configuration (1-byte keys, 1-byte constant
values, `journal_eras = 0`), for every key byte and value byte: inserting
the pair in a transaction, committing it, and flushing the journal so the
era is drained makes `get` return exactly the inserted value. -/
theorem insert_commit_flush_get (b v0 : Nat) (hb : b < 256) (hv0 : v0 < 256) :
    Database.create c1opts = .ok c1db0 ∧
    (c1db0.createTransaction.insert [b] [v0]).2 = none ∧
    ∃ db2,
      (c1db0.commit (c1db0.createTransaction.insert [b] [v0]).1).flushJournal none
        = .ok db2 ∧ db2.get [b] = .ok (some [v0]) := by
  refine ⟨by decide, by with_unfolding_all rfl, ?_⟩
  rcases Nat.lt_or_ge b 128 with hlt | hge
  · exact ⟨c1db2 0 b v0,
      c1_flush_journal 0 b v0 (readPfx_one_bit_lt b hlt) (by omega),
      c1_get 0 b v0 (readPfx_one_bit_lt b hlt) (by omega)⟩
  · exact ⟨c1db2 1 b v0,
      c1_flush_journal 1 b v0 (readPfx_one_bit_ge b hge hb) (by omega),
      c1_get 1 b v0 (readPfx_one_bit_ge b hge hb) (by omega)⟩

theorem insert_commit_flush_get_witness :
    Database.create c1opts = .ok c1db0 ∧
    (c1db0.createTransaction.insert [5] [7]).2 = none ∧
    ∃ db2,
      (c1db0.commit (c1db0.createTransaction.insert [5] [7]).1).flushJournal none
        = .ok db2 ∧ db2.get [5] = .ok (some [7]) :=
  insert_commit_flush_get 5 7 (by decide) (by decide)

end Segurodb
